import Mathlib

/-!
Verification of the moneybird client library (moneybird/api.py and
moneybird/authentication.py) against its natural-language specification.

The embedding models the Python code shallowly:
* JSON values decoded by response.json() become the inductive Json; a body
  that is not JSON-decodable is Option.none.
* Python runtime values passed around by the authentication code (str,
  list-of-str from parse_qs, decoded JSON, None) become the inductive Py.
* Raised exceptions become Except.error values carrying the exception data.
* The network is a parameter: the token-endpoint response of obtain_token is
  passed in as an argument.
-/

set_option maxHeartbeats 1000000

/-- JSON values as decoded by requests' response.json(): objects are
association lists of string keys (Python dicts, keys unique). -/
inductive Json where
  | null
  | bool (b : Bool)
  | num (n : Int)
  | str (s : String)
  | arr (elems : List Json)
  | obj (fields : List (String × Json))

/-- A Python runtime value as the authentication code passes them around:
a str, a list of str (as parse_qs produces), a decoded JSON value, or None. -/
inductive Py where
  | str (s : String)
  | list (xs : List String)
  | json (j : Json)
  | none

/-- Python truthiness of a decoded JSON value. -/
def Json.truthy : Json → Bool
  | .null => false
  | .bool b => b
  | .num n => n ≠ 0
  | .str s => s ≠ ""
  | .arr elems => !elems.isEmpty
  | .obj fields => !fields.isEmpty

/-- Python truthiness of a Py value. -/
def Py.truthy : Py → Bool
  | .str s => s ≠ ""
  | .list xs => xs ≠ []
  | .json j => j.truthy
  | .none => false

/-- The apostrophe character, as Python repr quotes strings with. -/
def pySq : String := String.mk [Char.ofNat 39]

mutual

/-- Python repr() of a decoded JSON value (string escaping inside the quotes
is not modeled; no value in this development needs it). -/
def Json.pyRepr : Json → String
  | .null => "None"
  | .bool b => if b then "True" else "False"
  | .num n => toString n
  | .str s => pySq ++ s ++ pySq
  | .arr elems => "[" ++ Json.pyReprList elems ++ "]"
  | .obj fields => "\x7b" ++ Json.pyReprFields fields ++ "\x7d"

/-- Comma-separated reprs of a list of JSON values. -/
def Json.pyReprList : List Json → String
  | [] => ""
  | [j] => j.pyRepr
  | j :: rest => j.pyRepr ++ ", " ++ Json.pyReprList rest

/-- Comma-separated key: value reprs of a JSON object's fields. -/
def Json.pyReprFields : List (String × Json) → String
  | [] => ""
  | [(k, v)] => pySq ++ k ++ pySq ++ ": " ++ v.pyRepr
  | (k, v) :: rest => pySq ++ k ++ pySq ++ ": " ++ v.pyRepr ++ ", " ++ Json.pyReprFields rest

end

/-- Python str() of a decoded JSON value. -/
def Json.pyStr : Json → String
  | .str s => s
  | j => j.pyRepr

/-- Python repr of a list of strings, as %s formats parse_qs values. -/
def pyListRepr (xs : List String) : String :=
  "[" ++ String.intercalate ", " (xs.map (fun s => pySq ++ s ++ pySq)) ++ "]"

/-- Python str() of a Py value (what the %s format inserts). -/
def Py.toStr : Py → String
  | .str s => s
  | .list xs => pyListRepr xs
  | .json j => j.pyStr
  | .none => "None"

/-- An HTTP response as MoneyBird._process_response consumes it: the status
code, and the body as response.json() decodes it (Option.none when decoding
raises ValueError, i.e. the body is not JSON). -/
structure Response where
  status_code : Nat
  body : Option Json

/-- Python dict assignment d[k] = v on an association list: replace the value
of an existing key in place, append a new key at the end. -/
def setKey : List (String × String) → String → String → List (String × String)
  | [], k, v => [(k, v)]
  | (k₀, v₀) :: rest, k, v =>
      if k₀ = k then (k₀, v) :: rest else (k₀, v₀) :: setKey rest k v

/-- Python dict.update: assign every pair of upd, in order. -/
def headersUpdate (d : List (String × String)) (upd : List (String × String)) :
    List (String × String) :=
  upd.foldl (fun acc kv => setKey acc kv.1 kv.2) d

/-- An HTTP session: requests.Session() with its header dict, modeled as an
association list holding the headers this library sets (requests' own default
headers carry none of the keys the library writes or reads). -/
structure Session where
  headers : List (String × String)

namespace MoneyBird

/-- The subclasses MoneyBird.APIError is specialised into. -/
inductive ErrCls where
  | unauthorized
  | notFound
  | invalidData
  | throttled
  | serverError
deriving DecidableEq

/-- A raised MoneyBird.APIError: the response's status code, which subclass
was raised (Option.none = the base APIError class), and the description passed
to the constructor (Py.none when the constructor got None). -/
structure RaisedError where
  status_code : Nat
  cls : Option ErrCls
  description : Py

/-- The description extraction of _process_response:
description = response.json()[error-key] under
except (AttributeError, TypeError, KeyError, ValueError): description = None.
Yields the error field of a JSON-object body, and None when the body is not
JSON, is not a dict, or lacks the key — never a secondary failure. -/
def errorDescription (r : Response) : Py :=
  match r.body with
  | some (.obj fields) =>
      match fields.lookup "error" with
      | some v => .json v
      | Option.none => .none
  | _ => .none

/-- The responses dict of MoneyBird._process_response: status code to None
(success, no exception) or the MoneyBird.APIError subclass to raise. -/
def responses : List (Nat × Option ErrCls) :=
  [(200, Option.none), (201, Option.none), (204, Option.none),
   (400, some .unauthorized), (401, some .unauthorized),
   (403, some .throttled), (404, some .notFound), (406, some .notFound),
   (422, some .invalidData), (429, some .throttled), (500, some .serverError)]

/-- MoneyBird._process_response: for a status code not in expected, an unknown
status raises the base APIError with the fixed description, a status mapped to
a subclass raises that subclass with the extracted description; otherwise the
JSON-decoded body is returned, Option.none when the body is not decodable. -/
def process_response (response : Response) (expected : List Nat) :
    Except RaisedError (Option Json) :=
  if response.status_code ∈ expected then .ok response.body
  else
    match responses.lookup response.status_code with
    | Option.none =>
        .error ⟨response.status_code, Option.none,
                .str "API response contained unknown status code"⟩
    | some Option.none => .ok response.body
    | some (some c) => .error ⟨response.status_code, some c, errorDescription response⟩

end MoneyBird

/-- moneybird.authentication.TokenAuthentication: holds the mutable token.
The field has type Py because OAuthAuthentication.obtain_token stores whatever
value the token endpoint's JSON carried. -/
structure TokenAuthentication where
  auth_token : Py

/-- TokenAuthentication.set_token: replaces the stored token. -/
def TokenAuthentication.set_token (_a : TokenAuthentication) (auth_token : Py) :
    TokenAuthentication :=
  ⟨auth_token⟩

/-- TokenAuthentication.is_ready: bool(self.auth_token). -/
def TokenAuthentication.is_ready (a : TokenAuthentication) : Bool :=
  a.auth_token.truthy

/-- TokenAuthentication.get_session: a fresh session whose headers are updated
with Authorization: Bearer %s of the token. -/
def TokenAuthentication.get_session (a : TokenAuthentication) : Session :=
  ⟨headersUpdate [] [("Authorization", "Bearer " ++ a.auth_token.toStr)]⟩

/-- C2: for every token string t, TokenAuthentication(t).is_ready() is true
iff t is non-empty, and the session returned by get_session() carries the
Authorization header with value exactly Bearer followed by a space and t; the
same holds after set_token(t) replaced an arbitrary earlier token. -/
theorem c2_token_authentication (t t₀ : String) :
    ((TokenAuthentication.mk (.str t)).is_ready = true ↔ t ≠ "") ∧
    (TokenAuthentication.mk (.str t)).get_session.headers.lookup "Authorization" =
      some ("Bearer " ++ t) ∧
    (((TokenAuthentication.mk (.str t₀)).set_token (.str t)).is_ready = true ↔ t ≠ "") ∧
    ((TokenAuthentication.mk (.str t₀)).set_token (.str t)).get_session.headers.lookup
      "Authorization" = some ("Bearer " ++ t) := by
  refine ⟨?_, ?_, ?_, ?_⟩ <;>
    simp [TokenAuthentication.is_ready, TokenAuthentication.get_session,
      TokenAuthentication.set_token, Py.truthy, Py.toStr, headersUpdate, setKey,
      List.lookup]

/-- C1: with the default empty expected list, _process_response is determined
by the status code exactly per the fixed table: 200, 201, 204 raise nothing
(the body is returned); 400 and 401 raise Unauthorized; 403 and 429 raise
Throttled; 404 and 406 raise NotFound; 422 raises InvalidData; 500 raises
ServerError; every other status raises the base APIError with description
"API response contained unknown status code". -/
theorem c1_process_response_status_table (r : Response) :
    ((r.status_code = 200 ∨ r.status_code = 201 ∨ r.status_code = 204) →
       MoneyBird.process_response r [] = .ok r.body) ∧
    ((r.status_code = 400 ∨ r.status_code = 401) →
       MoneyBird.process_response r [] =
         .error ⟨r.status_code, some .unauthorized, MoneyBird.errorDescription r⟩) ∧
    ((r.status_code = 403 ∨ r.status_code = 429) →
       MoneyBird.process_response r [] =
         .error ⟨r.status_code, some .throttled, MoneyBird.errorDescription r⟩) ∧
    ((r.status_code = 404 ∨ r.status_code = 406) →
       MoneyBird.process_response r [] =
         .error ⟨r.status_code, some .notFound, MoneyBird.errorDescription r⟩) ∧
    (r.status_code = 422 →
       MoneyBird.process_response r [] =
         .error ⟨r.status_code, some .invalidData, MoneyBird.errorDescription r⟩) ∧
    (r.status_code = 500 →
       MoneyBird.process_response r [] =
         .error ⟨r.status_code, some .serverError, MoneyBird.errorDescription r⟩) ∧
    (r.status_code ∉ [200, 201, 204, 400, 401, 403, 404, 406, 422, 429, 500] →
       MoneyBird.process_response r [] =
         .error ⟨r.status_code, Option.none,
                 .str "API response contained unknown status code"⟩) := by
  obtain ⟨sc, body⟩ := r
  refine ⟨?_, ?_, ?_, ?_, ?_, ?_, ?_⟩
  · rintro (rfl | rfl | rfl) <;> rfl
  · rintro (rfl | rfl) <;> rfl
  · rintro (rfl | rfl) <;> rfl
  · rintro (rfl | rfl) <;> rfl
  · rintro rfl; rfl
  · rintro rfl; rfl
  · intro h
    simp only [List.mem_cons, List.not_mem_nil, or_false, not_or] at h
    obtain ⟨h200, h201, h204, h400, h401, h403, h404, h406, h422, h429, h500⟩ := h
    simp [MoneyBird.process_response, MoneyBird.responses, List.lookup,
      beq_eq_false_iff_ne.mpr h200, beq_eq_false_iff_ne.mpr h201,
      beq_eq_false_iff_ne.mpr h204, beq_eq_false_iff_ne.mpr h400,
      beq_eq_false_iff_ne.mpr h401, beq_eq_false_iff_ne.mpr h403,
      beq_eq_false_iff_ne.mpr h404, beq_eq_false_iff_ne.mpr h406,
      beq_eq_false_iff_ne.mpr h422, beq_eq_false_iff_ne.mpr h429,
      beq_eq_false_iff_ne.mpr h500]

/-- C7: for success statuses the JSON-decoded body is returned, and a
non-decodable body yields Option.none rather than an error; for statuses
mapped to an error subclass the description is the extracted error field:
the error field of a JSON-object body when present, and no description (None)
when the field is missing or the body is not JSON — extraction is total, so
no secondary failure is possible. -/
theorem c7_process_response_bodies (r : Response) :
    ((r.status_code = 200 ∨ r.status_code = 201 ∨ r.status_code = 204) →
       MoneyBird.process_response r [] = .ok r.body) ∧
    (∀ e, MoneyBird.process_response r [] = .error e → e.cls ≠ Option.none →
       e.description = MoneyBird.errorDescription r) ∧
    (∀ fields v, r.body = some (.obj fields) → fields.lookup "error" = some v →
       MoneyBird.errorDescription r = .json v) ∧
    (∀ fields, r.body = some (.obj fields) → fields.lookup "error" = Option.none →
       MoneyBird.errorDescription r = .none) ∧
    (r.body = Option.none → MoneyBird.errorDescription r = .none) := by
  refine ⟨?_, ?_, ?_, ?_, ?_⟩
  · obtain ⟨sc, body⟩ := r
    rintro (rfl | rfl | rfl) <;> rfl
  · intro e he hcls
    unfold MoneyBird.process_response at he
    rw [if_neg (List.not_mem_nil _)] at he
    split at he
    · injection he with h
      rw [← h] at hcls
      exact absurd rfl hcls
    · exact absurd he (by simp)
    · injection he with h
      rw [← h]
  · intro fields v hb hv
    simp [MoneyBird.errorDescription, hb, hv]
  · intro fields hb hv
    simp [MoneyBird.errorDescription, hb, hv]
  · intro hb
    simp [MoneyBird.errorDescription, hb]

/-- Lowercase hexadecimal digit character for a nibble, as Python's %x format
renders it. -/
def hexLowerChar (n : Nat) : Char :=
  if n < 10 then Char.ofNat (48 + n) else Char.ofNat (87 + n)

/-- Fixed-width big-endian hexadecimal rendering: k hex digits of n, zero
padded, as str(uuid.UUID) renders the 128-bit integer (hyphens aside). -/
def hexFixed : Nat → Nat → List Char
  | 0, _ => []
  | k + 1, n => hexFixed k (n / 16) ++ [hexLowerChar (n % 16)]

/-- uuid.uuid4(): a 128-bit integer built from 16 random bytes, with the
variant bits forced to 10 and the version bits to 4, exactly as UUID.__init__
applies int &= ~(0xc000 << 48); int |= 0x8000 << 48; int &= ~(0xf000 << 64);
int |= 4 << 76. The byte randomness is the argument. -/
def uuid4_int (randomBits : Nat) : Nat :=
  let x := randomBits % 2 ^ 128
  let x := x &&& (2 ^ 128 - 1 - (0xc000 <<< 48))
  let x := x ||| (0x8000 <<< 48)
  let x := x &&& (2 ^ 128 - 1 - (0xf000 <<< 64))
  x ||| (0x4000 <<< 64)

/-- OAuthAuthentication._generate_state: str(uuid.uuid4()).replace of hyphen
by nothing — the 32 hex digits of the uuid4 integer with the hyphens removed.
The randomness consumed by uuid4 is the argument. -/
def OAuthAuthentication.generate_state (randomBits : Nat) : String :=
  String.mk (hexFixed 32 (uuid4_int randomBits))

/-- The rendering hexFixed k always yields exactly k characters. -/
theorem hexFixed_length (k n : Nat) : (hexFixed k n).length = k := by
  induction k generalizing n with
  | zero => rfl
  | succ k ih => simp [hexFixed, ih]

/-- Hex digit characters below 16 determine the nibble. -/
theorem hexLowerChar_inj : ∀ a < 16, ∀ b < 16,
    hexLowerChar a = hexLowerChar b → a = b := by decide

/-- Hex digit characters of nibbles are letters or digits. -/
theorem hexLowerChar_alphanum : ∀ m < 16, (hexLowerChar m).isAlphanum = true := by
  decide

/-- Every character hexFixed emits is a letter or digit. -/
theorem hexFixed_alphanum (k n : Nat) : ∀ c ∈ hexFixed k n, c.isAlphanum = true := by
  induction k generalizing n with
  | zero => intro c hc; cases hc
  | succ k ih =>
    intro c hc
    rcases List.mem_append.1 hc with h | h
    · exact ih _ c h
    · rcases List.mem_singleton.1 h with rfl
      exact hexLowerChar_alphanum _ (Nat.mod_lt _ (by omega))

/-- On integers below 16 to the k, the k-digit hex rendering is injective. -/
theorem hexFixed_inj : ∀ (k a b : Nat), a < 16 ^ k → b < 16 ^ k →
    hexFixed k a = hexFixed k b → a = b
  | 0, a, b, ha, hb, _ => by
      simp only [pow_zero, Nat.lt_one_iff] at ha hb
      omega
  | k + 1, a, b, ha, hb, h => by
      simp only [hexFixed] at h
      have hlen : (hexFixed k (a / 16)).length = (hexFixed k (b / 16)).length := by
        rw [hexFixed_length, hexFixed_length]
      obtain ⟨h1, h2⟩ := List.append_inj h hlen
      have hmod : a % 16 = b % 16 :=
        hexLowerChar_inj _ (Nat.mod_lt _ (by omega)) _ (Nat.mod_lt _ (by omega))
          (List.singleton_injective h2 ▸ rfl)
      have hdivlt : a / 16 < 16 ^ k := by
        rw [Nat.div_lt_iff_lt_mul (by omega)]
        calc a < 16 ^ (k + 1) := ha
        _ = 16 ^ k * 16 := by rw [pow_succ]
      have hdivlt' : b / 16 < 16 ^ k := by
        rw [Nat.div_lt_iff_lt_mul (by omega)]
        calc b < 16 ^ (k + 1) := hb
        _ = 16 ^ k * 16 := by rw [pow_succ]
      have hdiv : a / 16 = b / 16 := hexFixed_inj k _ _ hdivlt hdivlt' h1
      omega

/-- The uuid4 integer always fits in 128 bits. -/
theorem uuid4_int_lt (randomBits : Nat) : uuid4_int randomBits < 2 ^ 128 := by
  unfold uuid4_int
  refine Nat.or_lt_two_pow ?_ (by decide)
  calc _ ≤ (2 ^ 128 - 1 - (0xf000 <<< 64)) := Nat.and_le_right
  _ < 2 ^ 128 := by decide

/-- C9: every state _generate_state produces is a 32-character alphanumeric
identifier (in particular longer than 16 characters), and the rendering is
injective on the underlying uuid4 integers: a sequence of generations — such
as 10,000 successive ones — contains a duplicate state exactly when the drawn
uuid4 integers themselves collide. -/
theorem c9_generate_state_length_unique (randomBits : Nat) (draws : List Nat) :
    (OAuthAuthentication.generate_state randomBits).length = 32 ∧
    16 < (OAuthAuthentication.generate_state randomBits).length ∧
    (∀ c ∈ (OAuthAuthentication.generate_state randomBits).data, c.isAlphanum = true) ∧
    ((draws.map OAuthAuthentication.generate_state).Nodup ↔
      (draws.map uuid4_int).Nodup) := by
  have hlen : ∀ r, (OAuthAuthentication.generate_state r).length = 32 := fun r => by
    show (String.mk (hexFixed 32 (uuid4_int r))).length = 32
    simpa using hexFixed_length 32 (uuid4_int r)
  refine ⟨hlen randomBits, by rw [hlen]; omega, ?_, ?_⟩
  · exact fun c hc => hexFixed_alphanum 32 _ c hc
  · have hmap : draws.map OAuthAuthentication.generate_state =
        (draws.map uuid4_int).map (fun n => String.mk (hexFixed 32 n)) := by
      rw [List.map_map]; rfl
    rw [hmap]
    constructor
    · exact fun h => List.Nodup.of_map _ h
    · intro h
      refine List.Nodup.map_on ?_ h
      intro x hx y hy hxy
      rcases List.mem_map.1 hx with ⟨rx, _, rfl⟩
      rcases List.mem_map.1 hy with ⟨ry, _, rfl⟩
      have hx' : uuid4_int rx < 16 ^ 32 := by
        have := uuid4_int_lt rx
        calc uuid4_int rx < 2 ^ 128 := this
        _ = 16 ^ 32 := by norm_num
      have hy' : uuid4_int ry < 16 ^ 32 := by
        have := uuid4_int_lt ry
        calc uuid4_int ry < 2 ^ 128 := this
        _ = 16 ^ 32 := by norm_num
      exact hexFixed_inj 32 _ _ hx' hy' (by injection hxy)

/-- Python str.split with a one-character separator and no maxsplit:
splitting "a&&b" on the ampersand gives ["a", "", "b"], splitting "" gives
[""]. -/
def pySplit (sep : Char) : List Char → List (List Char)
  | [] => [[]]
  | c :: rest =>
      if c = sep then [] :: pySplit sep rest
      else
        match pySplit sep rest with
        | [] => [[c]]
        | h :: t => (c :: h) :: t

/-- Python str.split(sep, 1): at most one split, at the first occurrence of
the separator. -/
def pySplitOnce (sep : Char) : List Char → List (List Char)
  | [] => [[]]
  | c :: rest =>
      if c = sep then [[], rest]
      else
        match pySplitOnce sep rest with
        | [] => [[c]]
        | h :: t => (c :: h) :: t

/-- The value of a hexadecimal digit character, in either case, as urllib's
unquote accepts them; Option.none for a non-hex character. -/
def hexVal? (c : Char) : Option Nat :=
  if 48 ≤ c.toNat ∧ c.toNat ≤ 57 then some (c.toNat - 48)
  else if 65 ≤ c.toNat ∧ c.toNat ≤ 70 then some (c.toNat - 55)
  else if 97 ≤ c.toNat ∧ c.toNat ≤ 102 then some (c.toNat - 87)
  else Option.none

/-- The Unicode replacement character that decoding with errors='replace'
inserts for invalid UTF-8. -/
def replChar : Char := Char.ofNat 0xFFFD

/-- State of an incremental UTF-8 decoder: how many continuation bytes are
still expected, the code point accumulated so far, and the allowed range for
the next byte (the first continuation byte of a sequence is range-restricted,
ruling out overlong encodings, surrogates and code points beyond U+10FFFF,
as CPython's UTF-8 decoder does). -/
structure Utf8State where
  expect : Nat
  acc : Nat
  nextLo : Nat
  nextHi : Nat

/-- The decoder state with no sequence pending. -/
def Utf8State.empty : Utf8State := ⟨0, 0, 0, 0⟩

/-- Flush of a pending sequence: errors='replace' yields one replacement
character for an unfinished sequence. -/
def Utf8State.flush (s : Utf8State) : List Char :=
  if s.expect = 0 then [] else [replChar]

/-- Classify one byte as the start of a UTF-8 sequence: an ASCII byte is a
character of its own, a valid lead byte opens a sequence, anything else is
replaced. -/
def utf8Lead (b : Nat) : List Char × Utf8State :=
  if b < 0x80 then ([Char.ofNat b], Utf8State.empty)
  else if b < 0xC2 then ([replChar], Utf8State.empty)
  else if b < 0xE0 then ([], ⟨1, b - 0xC0, 0x80, 0xBF⟩)
  else if b = 0xE0 then ([], ⟨2, 0, 0xA0, 0xBF⟩)
  else if b < 0xED then ([], ⟨2, b - 0xE0, 0x80, 0xBF⟩)
  else if b = 0xED then ([], ⟨2, 0xD, 0x80, 0x9F⟩)
  else if b < 0xF0 then ([], ⟨2, b - 0xE0, 0x80, 0xBF⟩)
  else if b = 0xF0 then ([], ⟨3, 0, 0x90, 0xBF⟩)
  else if b < 0xF4 then ([], ⟨3, b - 0xF0, 0x80, 0xBF⟩)
  else if b = 0xF4 then ([], ⟨3, 4, 0x80, 0x8F⟩)
  else ([replChar], Utf8State.empty)

/-- Feed one byte to the incremental UTF-8 decoder: the characters emitted
and the next state. An invalid continuation byte replaces the pending
sequence and is reprocessed as a sequence start. -/
def utf8Step (s : Utf8State) (b : Nat) : List Char × Utf8State :=
  if s.expect = 0 then utf8Lead b
  else if s.nextLo ≤ b ∧ b ≤ s.nextHi then
    let acc := s.acc * 64 + (b - 0x80)
    if s.expect = 1 then ([Char.ofNat acc], Utf8State.empty)
    else ([], ⟨s.expect - 1, acc, 0x80, 0xBF⟩)
  else
    let r := utf8Lead b
    (replChar :: r.1, r.2)

/-- The core loop of urllib.parse.unquote on an input whose plus signs were
already replaced: percent escapes become bytes fed to the UTF-8 decoder, a
malformed escape leaves the percent sign literal (as an ASCII byte), other
ASCII characters also pass through the byte decoder (CPython decodes each
ASCII chunk's byte string in one call, so literals between escapes join the
byte stream), non-ASCII characters pass through directly. -/
def unquoteAux (s : Utf8State) : List Char → List Char
  | [] => s.flush
  | '%' :: h1 :: h2 :: rest =>
      match hexVal? h1, hexVal? h2 with
      | some a, some b =>
          let r := utf8Step s (16 * a + b)
          r.1 ++ unquoteAux r.2 rest
      | _, _ =>
          let r := utf8Step s 0x25
          r.1 ++ unquoteAux r.2 (h1 :: h2 :: rest)
  | c :: rest =>
      if c.toNat < 0x80 then
        let r := utf8Step s c.toNat
        r.1 ++ unquoteAux r.2 rest
      else s.flush ++ c :: unquoteAux Utf8State.empty rest

/-- Plus-to-space replacement, done before unquoting. -/
def plusToSpace (c : Char) : Char := if c = '+' then ' ' else c

/-- urllib.parse.unquote_plus on a character list. -/
def unquotePlusL (l : List Char) : List Char :=
  unquoteAux Utf8State.empty (l.map plusToSpace)

/-- urllib.parse.unquote_plus: plus signs become spaces, then percent escapes
are decoded as UTF-8 with errors='replace'. -/
def unquote_plus (s : String) : String := String.mk (unquotePlusL s.data)

/-- urllib.parse.parse_qsl with default arguments (keep_blank_values False,
strict_parsing False, separator the ampersand): empty fields, fields without
an equals sign and fields with an empty value are dropped; names and values
are unquote_plus decoded. -/
def parse_qsl (qs : List Char) : List (String × String) :=
  (pySplit '&' qs).foldr
    (fun field acc =>
      match pySplitOnce '=' field with
      | [n, v] =>
          if v = [] then acc
          else (String.mk (unquotePlusL n), String.mk (unquotePlusL v)) :: acc
      | _ => acc) []

/-- Python dict building of parse_qs: append the value to an existing name's
list, or add the name at the end. -/
def dictAppend : List (String × List String) → String → String →
    List (String × List String)
  | [], n, v => [(n, [v])]
  | (k, vs) :: rest, n, v =>
      if k = n then (k, vs ++ [v]) :: rest else (k, vs) :: dictAppend rest n v

/-- urllib.parse.parse_qs: the parse_qsl pairs grouped into a dict from names
to value lists, in order. -/
def parse_qs (qs : List Char) : List (String × List String) :=
  (parse_qsl qs).foldl (fun d nv => dictAppend d nv.1 nv.2) []

/-- OAuthAuthentication.OAuthError: the stored error_code attribute and the
formatted exception message. -/
structure OAuthError where
  error_code : Py
  msg : String

/-- The OAuthError constructor: a falsy error code is replaced by the string
"unknown" and a falsy description by "Unknown reason"; the message formats
both with %s. -/
def OAuthError.make (error_code : Py) (description : Py) : OAuthError :=
  let ec := if error_code.truthy then error_code else .str "unknown"
  let d := if description.truthy then description else .str "Unknown reason"
  ⟨ec, "OAuth error (" ++ ec.toStr ++ "): " ++ d.toStr⟩

/-- An exception raised by obtain_token: an uncaught IndexError from the
split, an uncaught KeyError from the state subscript, a ValueError
(validation error) with its message, or an OAuthError. -/
inductive PyErr where
  | indexError
  | keyError (key : String)
  | valueError (msg : String)
  | oauthError (e : OAuthError)

/-- moneybird.authentication.OAuthAuthentication: the OAuth client identity
and the wrapped TokenAuthentication holding the (mutable) token. -/
structure OAuthAuthentication where
  redirect_url : String
  client_id : String
  client_secret : String
  real_auth : TokenAuthentication

/-- OAuthAuthentication.__init__: stores the client identity and wraps a
TokenAuthentication around the optional earlier token. -/
def OAuthAuthentication.make (redirect_url client_id client_secret : String)
    (auth_token : String) : OAuthAuthentication :=
  ⟨redirect_url, client_id, client_secret, ⟨.str auth_token⟩⟩

/-- OAuthAuthentication.is_ready: delegates to the wrapped token
authentication. -/
def OAuthAuthentication.is_ready (a : OAuthAuthentication) : Bool :=
  a.real_auth.is_ready

/-- OAuthAuthentication.get_session: delegates to the wrapped token
authentication. -/
def OAuthAuthentication.get_session (a : OAuthAuthentication) : Session :=
  a.real_auth.get_session

/-- The token-exchange tail of OAuthAuthentication.obtain_token, from the
requests.post call on: tokenResponse is the token endpoint's decoded JSON
object (Option.none when .json() raises ValueError; the endpoint answers
with a JSON object, so non-object bodies are outside the model — the posted
form itself is not needed by any claim). Returns the possibly-mutated
authentication object with the returned token or the raised exception.
Note the source's quirk: the description passed to OAuthError is
response.get of the error key again, not of error_description. -/
def OAuthAuthentication.exchangeToken (a : OAuthAuthentication)
    (tokenResponse : Option (List (String × Json))) :
    OAuthAuthentication × Except PyErr Json :=
  match tokenResponse with
  | Option.none =>
      (a, .error (.valueError
        "The OAuth server returned an invalid response when obtaining a token: JSON error"))
  | some response =>
      match response.lookup "error" with
      | some errVal =>
          (a, .error (.oauthError (OAuthError.make (.json errVal)
            (match response.lookup "error" with
             | some v => .json v
             | Option.none => .str ""))))
      | Option.none =>
          match response.lookup "access_token" with
          | Option.none =>
              (a, .error (.valueError
                "The remote server returned an invalid response when obtaining a token: no access token"))
          | some tok =>
              ({ a with real_auth := a.real_auth.set_token (.json tok) }, .ok tok)

/-- OAuthAuthentication.obtain_token: splits the redirect URL on the question
mark (the [1] subscript raises IndexError when the URL has none), parses the
query string, raises OAuthError when an error parameter is present, ValueError
when no code parameter is present, and — for a truthy expected state — raises
KeyError when the URL has no state parameter and ValueError when [state]
differs from the state parameter's value list; then exchanges the code at the
token endpoint, whose decoded response is the tokenResponse argument. -/
def OAuthAuthentication.obtain_token (a : OAuthAuthentication)
    (redirect_url : String) (state : String)
    (tokenResponse : Option (List (String × Json))) :
    OAuthAuthentication × Except PyErr Json :=
  match pySplitOnce '?' redirect_url.data with
  | _ :: qs :: _ =>
      let url_data := parse_qs qs
      match url_data.lookup "error" with
      | some errVals =>
          (a, .error (.oauthError (OAuthError.make (.list errVals)
            (match url_data.lookup "error_description" with
             | some d => .list d
             | Option.none => .none))))
      | Option.none =>
          if (url_data.lookup "code").isNone then
            (a, .error (.valueError
              "The provided URL is not a valid OAuth authentication response: no code"))
          else if state ≠ "" then
            match url_data.lookup "state" with
            | Option.none => (a, .error (.keyError "state"))
            | some sv =>
                if [state] ≠ sv then
                  (a, .error (.valueError
                    "CSRF attack detected: the state in the provided URL does not equal the given state"))
                else a.exchangeToken tokenResponse
          else a.exchangeToken tokenResponse
  | _ => (a, .error .indexError)

/-- Splitting once at a separator that the prefix avoids yields the prefix and
the unsplit remainder. -/
theorem pySplitOnce_append (sep : Char) (p rest : List Char) (hp : sep ∉ p) :
    pySplitOnce sep (p ++ sep :: rest) = [p, rest] := by
  induction p with
  | nil => simp [pySplitOnce]
  | cons c p ih =>
    have hc : ¬ c = sep := fun h => hp (h ▸ List.mem_cons_self c p)
    have hp' : sep ∉ p := fun h => hp (List.mem_cons_of_mem _ h)
    simp only [List.cons_append, pySplitOnce, if_neg hc]
    rw [show p.append (sep :: rest) = p ++ sep :: rest from rfl, ih hp']

/-- Splitting once on a separator that does not occur leaves the whole string
as the only part. -/
theorem pySplitOnce_of_not_mem (sep : Char) (l : List Char) (h : sep ∉ l) :
    pySplitOnce sep l = [l] := by
  induction l with
  | nil => rfl
  | cons c l ih =>
    have hc : ¬ c = sep := fun hh => h (hh ▸ List.mem_cons_self c l)
    have h' : sep ∉ l := fun hh => h (List.mem_cons_of_mem _ hh)
    simp only [pySplitOnce, if_neg hc, ih h']

/-- C3: for a redirect URL whose query string has no error parameter,
obtain_token raises ValueError when no code parameter is present; when a code
parameter is present, the expected state is non-empty and the URL's state
parameter does not match it, it raises the CSRF ValueError; and when the
expected state is empty no state check happens at all — the result is exactly
the token exchange, whatever the state parameters are. -/
theorem c3_obtain_token_validation (a : OAuthAuthentication) (p qs : List Char)
    (state : String) (tr : Option (List (String × Json)))
    (hp : '?' ∉ p)
    (herr : (parse_qs qs).lookup "error" = Option.none) :
    ((parse_qs qs).lookup "code" = Option.none →
       a.obtain_token (String.mk (p ++ '?' :: qs)) state tr =
         (a, .error (.valueError
           "The provided URL is not a valid OAuth authentication response: no code"))) ∧
    (∀ sv, (parse_qs qs).lookup "code" ≠ Option.none → state ≠ "" →
       (parse_qs qs).lookup "state" = some sv → [state] ≠ sv →
       a.obtain_token (String.mk (p ++ '?' :: qs)) state tr =
         (a, .error (.valueError
           "CSRF attack detected: the state in the provided URL does not equal the given state"))) ∧
    (state = "" → (parse_qs qs).lookup "code" ≠ Option.none →
       a.obtain_token (String.mk (p ++ '?' :: qs)) state tr = a.exchangeToken tr) := by
  have hsplit : pySplitOnce '?' (String.mk (p ++ '?' :: qs)).data = [p, qs] :=
    pySplitOnce_append '?' p qs hp
  refine ⟨?_, ?_, ?_⟩
  · intro hcode
    simp [OAuthAuthentication.obtain_token, hsplit, herr, hcode]
  · intro sv hcode hstate hsv hne
    rcases h : (parse_qs qs).lookup "code" with _ | cv
    · exact absurd h hcode
    · simp [OAuthAuthentication.obtain_token, hsplit, herr, h, hsv, hstate, hne]
  · intro h0 hcode
    subst h0
    rcases h : (parse_qs qs).lookup "code" with _ | cv
    · exact absurd h hcode
    · simp [OAuthAuthentication.obtain_token, hsplit, herr, h]

/-- Witness for C3 at concrete inputs: a redirect carrying code=c and
state=other, checked against expected state "st", raises the CSRF ValueError. -/
theorem c3_obtain_token_validation_witness :
    (OAuthAuthentication.make "https://example.test/cb/" "cid" "sec" "").obtain_token
        (String.mk ("https://x.test/cb".data ++ '?' :: "code=c&state=other".data)) "st"
        Option.none =
      (OAuthAuthentication.make "https://example.test/cb/" "cid" "sec" "",
        .error (.valueError
          "CSRF attack detected: the state in the provided URL does not equal the given state")) :=
  (c3_obtain_token_validation
      (OAuthAuthentication.make "https://example.test/cb/" "cid" "sec" "")
      "https://x.test/cb".data "code=c&state=other".data "st" Option.none
      (by decide) (by rfl)).2.1
    ["other"] (by decide) (by decide) (by rfl) (by decide)

/-- C10 as frozen is wrong on its second half: a redirect URL that carries a
code parameter and no state parameter but also an error parameter makes
obtain_token raise OAuthError (the error branch runs first), not KeyError. -/
theorem c10_counterexample_error_param_wins :
    ((parse_qs "error=x&code=c".data).lookup "code" ≠ Option.none) ∧
    ((parse_qs "error=x&code=c".data).lookup "state" = Option.none) ∧
    ((OAuthAuthentication.make "https://example.test/cb/" "cid" "sec" "").obtain_token
        "https://x.test/cb?error=x&code=c" "st" Option.none).2 =
      .error (.oauthError (OAuthError.make (.list ["x"]) .none)) ∧
    ((OAuthAuthentication.make "https://example.test/cb/" "cid" "sec" "").obtain_token
        "https://x.test/cb?error=x&code=c" "st" Option.none).2 ≠
      .error (.keyError "state") := by
  refine ⟨by decide, by rfl, by rfl, ?_⟩
  intro h
  rw [show ((OAuthAuthentication.make "https://example.test/cb/" "cid" "sec" "").obtain_token
      "https://x.test/cb?error=x&code=c" "st" Option.none).2 =
      .error (.oauthError (OAuthError.make (.list ["x"]) .none)) from rfl] at h
  exact PyErr.noConfusion (Except.error.inj h)

/-- C10 amended: a redirect URL without a question mark makes obtain_token
raise an uncaught IndexError from the split, whatever the state and token
response; and a redirect URL whose query string carries a code parameter but
no state parameter — and no error parameter, which would win — makes a
non-empty expected state raise an uncaught KeyError. -/
theorem c10_amended_crash_paths (a : OAuthAuthentication) :
    (∀ url : String, ∀ state tr, '?' ∉ url.data →
       a.obtain_token url state tr = (a, .error .indexError)) ∧
    (∀ p qs : List Char, ∀ state tr, '?' ∉ p →
       (parse_qs qs).lookup "error" = Option.none →
       (parse_qs qs).lookup "code" ≠ Option.none →
       (parse_qs qs).lookup "state" = Option.none →
       state ≠ "" →
       a.obtain_token (String.mk (p ++ '?' :: qs)) state tr =
         (a, .error (.keyError "state"))) := by
  constructor
  · intro url state tr h
    simp [OAuthAuthentication.obtain_token, pySplitOnce_of_not_mem '?' url.data h]
  · intro p qs state tr hp herr hcode hstate hne
    have hsplit : pySplitOnce '?' (String.mk (p ++ '?' :: qs)).data = [p, qs] :=
      pySplitOnce_append '?' p qs hp
    rcases h : (parse_qs qs).lookup "code" with _ | cv
    · exact absurd h hcode
    · simp [OAuthAuthentication.obtain_token, hsplit, herr, h, hstate, hne]

/-- C4 as frozen is wrong about the error_code field: on a redirect carrying
error=access_denied, the OAuthError's error_code is the parse_qs value list
(a Python list holding the code), not the provider's error code string. -/
theorem c4_counterexample_error_code_is_list :
    ((OAuthAuthentication.make "https://example.test/cb/" "cid" "sec" "").obtain_token
        "https://x.test/cb?error=access_denied&error_description=Denied" "st"
        Option.none).2 =
      .error (.oauthError ⟨.list ["access_denied"],
        "OAuth error (" ++ pyListRepr ["access_denied"] ++ "): " ++
          pyListRepr ["Denied"]⟩) ∧
    Py.list ["access_denied"] ≠ Py.str "access_denied" :=
  ⟨rfl, fun h => Py.noConfusion h⟩

/-- C4 amended: on a redirect with an error parameter, obtain_token raises an
OAuthError whose error_code is the list of the parameter's values (a singleton
list holding the provider's code string when it occurs once) and whose message
formats that list and the error_description value list; the constructor
substitutes "unknown" for a falsy error code and "Unknown reason" for a falsy
description; and a token-endpoint JSON response with an error field raises an
OAuthError carrying that provider error value (the description quirkily being
the same value, as the source passes response.get of error again). -/
theorem c4_amended_oauth_error (a : OAuthAuthentication) (p qs : List Char)
    (state : String) (tr : Option (List (String × Json))) (hp : '?' ∉ p) :
    (∀ ev, (parse_qs qs).lookup "error" = some ev →
       a.obtain_token (String.mk (p ++ '?' :: qs)) state tr =
         (a, .error (.oauthError (OAuthError.make (.list ev)
            (match (parse_qs qs).lookup "error_description" with
             | some d => Py.list d
             | Option.none => Py.none))))) ∧
    (∀ ec d, (OAuthError.make ec d).error_code =
       if ec.truthy then ec else Py.str "unknown") ∧
    (∀ ec d, (OAuthError.make ec d).msg =
       "OAuth error (" ++ (if ec.truthy then ec else Py.str "unknown").toStr ++ "): " ++
         (if d.truthy then d else Py.str "Unknown reason").toStr) ∧
    (∀ response ev, response.lookup "error" = some ev →
       (parse_qs qs).lookup "error" = Option.none →
       (parse_qs qs).lookup "code" ≠ Option.none →
       a.obtain_token (String.mk (p ++ '?' :: qs)) "" (some response) =
         (a, .error (.oauthError (OAuthError.make (.json ev) (.json ev))))) := by
  have hsplit : pySplitOnce '?' (String.mk (p ++ '?' :: qs)).data = [p, qs] :=
    pySplitOnce_append '?' p qs hp
  refine ⟨?_, ?_, ?_, ?_⟩
  · intro ev hev
    simp only [OAuthAuthentication.obtain_token, hsplit, hev]
  · intro ec d
    simp [OAuthError.make]
  · intro ec d
    simp [OAuthError.make]
  · intro response ev hev herr hcode
    rcases h : (parse_qs qs).lookup "code" with _ | cv
    · exact absurd h hcode
    · simp [OAuthAuthentication.obtain_token, hsplit, herr, h,
        OAuthAuthentication.exchangeToken, hev]

/-- Witness for the amended C4 at concrete inputs: error=access_denied with no
error_description yields an OAuthError whose error_code is the singleton list
and whose description defaults. -/
theorem c4_amended_oauth_error_witness :
    (OAuthAuthentication.make "https://example.test/cb/" "cid" "sec" "").obtain_token
        (String.mk ("https://x.test/cb".data ++ '?' :: "error=access_denied".data)) "st"
        Option.none =
      (OAuthAuthentication.make "https://example.test/cb/" "cid" "sec" "",
        .error (.oauthError (OAuthError.make (.list ["access_denied"]) Py.none))) :=
  (c4_amended_oauth_error
      (OAuthAuthentication.make "https://example.test/cb/" "cid" "sec" "")
      "https://x.test/cb".data "error=access_denied".data "st" Option.none
      (by decide)).1 ["access_denied"] (by rfl)

/-- C8: for a token-endpoint JSON response without an error field, reached
through a valid redirect: when an access_token field is present obtain_token
stores that value in the wrapped TokenAuthentication (so is_ready becomes its
truthiness and the derived session carries it in the Authorization header) and
returns exactly that value; when absent it raises ValueError and the
authentication object — in particular the wrapped token — is unchanged. -/
theorem c8_exchange_stores_token (a : OAuthAuthentication)
    (response : List (String × Json))
    (herr : response.lookup "error" = Option.none) :
    (∀ tok, response.lookup "access_token" = some tok →
       a.obtain_token "https://callback.test/?code=c" "" (some response) =
         ({ a with real_auth := ⟨.json tok⟩ }, .ok tok) ∧
       ({ a with real_auth := (⟨.json tok⟩ : TokenAuthentication) } :
           OAuthAuthentication).is_ready = (Py.json tok).truthy ∧
       ({ a with real_auth := (⟨.json tok⟩ : TokenAuthentication) } :
           OAuthAuthentication).get_session.headers.lookup "Authorization" =
         some ("Bearer " ++ (Py.json tok).toStr)) ∧
    (response.lookup "access_token" = Option.none →
       a.obtain_token "https://callback.test/?code=c" "" (some response) =
         (a, .error (.valueError
           "The remote server returned an invalid response when obtaining a token: no access token"))) := by
  have hred : ∀ tr, a.obtain_token "https://callback.test/?code=c" "" tr =
      a.exchangeToken tr := fun tr => rfl
  constructor
  · intro tok htok
    refine ⟨?_, rfl, ?_⟩
    · rw [hred]
      simp [OAuthAuthentication.exchangeToken, herr, htok, TokenAuthentication.set_token]
    · simp [OAuthAuthentication.get_session, TokenAuthentication.get_session,
        headersUpdate, setKey, List.lookup]
  · intro hnone
    rw [hred]
    simp [OAuthAuthentication.exchangeToken, herr, hnone]

/-- Witness for C8 at a concrete response: access_token tok123 is stored and
returned. -/
theorem c8_exchange_stores_token_witness :
    (OAuthAuthentication.make "https://example.test/cb/" "cid" "sec" "").obtain_token
        "https://callback.test/?code=c" "" (some [("access_token", Json.str "tok123")]) =
      ({ OAuthAuthentication.make "https://example.test/cb/" "cid" "sec" "" with
          real_auth := ⟨.json (.str "tok123")⟩ }, .ok (.str "tok123")) :=
  ((c8_exchange_stores_token
      (OAuthAuthentication.make "https://example.test/cb/" "cid" "sec" "")
      [("access_token", Json.str "tok123")] rfl).1 (.str "tok123") rfl).1

/-- Python str.join with a one-character separator. -/
def pyJoin (sep : Char) : List (List Char) → List Char
  | [] => []
  | [x] => x
  | x :: rest => x ++ sep :: pyJoin sep rest

/-- The characters urllib's quote never escapes: ASCII letters, digits,
underscore, dot, hyphen and tilde (urlencode passes safe='', so nothing else
is safe). -/
def alwaysSafe (c : Char) : Bool :=
  (65 ≤ c.toNat ∧ c.toNat ≤ 90) ∨ (97 ≤ c.toNat ∧ c.toNat ≤ 122) ∨
  (48 ≤ c.toNat ∧ c.toNat ≤ 57) ∨ c = '_' ∨ c = '.' ∨ c = '-' ∨ c = '~'

/-- Uppercase hexadecimal digit character, as percent escapes are written. -/
def hexUpperChar (n : Nat) : Char :=
  if n < 10 then Char.ofNat (48 + n) else Char.ofNat (55 + n)

/-- The UTF-8 bytes of a code point. -/
def utf8Bytes (n : Nat) : List Nat :=
  if n < 0x80 then [n]
  else if n < 0x800 then [0xC0 + n / 64, 0x80 + n % 64]
  else if n < 0x10000 then [0xE0 + n / 4096, 0x80 + n / 64 % 64, 0x80 + n % 64]
  else [0xF0 + n / 262144, 0x80 + n / 4096 % 64, 0x80 + n / 64 % 64, 0x80 + n % 64]

/-- The percent escape of one byte. -/
def pctEscape (b : Nat) : List Char :=
  ['%', hexUpperChar (b / 16), hexUpperChar (b % 16)]

/-- urllib.parse.quote_plus with safe='' on one character: a space becomes a
plus, a safe character stays itself, anything else becomes the percent
escapes of its UTF-8 bytes. -/
def quotePlusChar (c : Char) : List Char :=
  if c = ' ' then ['+']
  else if alwaysSafe c then [c]
  else (utf8Bytes c.toNat).flatMap pctEscape

/-- urllib.parse.quote_plus with safe='' on a character list. -/
def quotePlusL (l : List Char) : List Char := l.flatMap quotePlusChar

/-- urllib.parse.quote_plus with safe='' (the form urlencode uses). -/
def quote_plus (s : String) : String := String.mk (quotePlusL s.data)

/-- urllib.parse.urlencode over a dict's items in insertion order, with
quote_via=quote_plus: quoted name, equals sign, quoted value, ampersands in
between. -/
def urlencode (params : List (String × String)) : String :=
  String.mk (pyJoin '&'
    (params.map (fun kv => quotePlusL kv.1.data ++ '=' :: quotePlusL kv.2.data)))

/-- Scheme characters per urllib: ASCII letters, digits, plus, hyphen, dot. -/
def schemeChar (c : Char) : Bool :=
  (65 ≤ c.toNat ∧ c.toNat ≤ 90) ∨ (97 ≤ c.toNat ∧ c.toNat ≤ 122) ∨
  (48 ≤ c.toNat ∧ c.toNat ≤ 57) ∨ c = '+' ∨ c = '-' ∨ c = '.'

/-- ASCII lowercasing, as urlsplit lowercases the scheme. -/
def asciiLower (c : Char) : Char :=
  if 65 ≤ c.toNat ∧ c.toNat ≤ 90 then Char.ofNat (c.toNat + 32) else c

/-- Split at the first occurrence of a character: the parts before and after,
or Option.none when the character does not occur. -/
def splitFirst (sep : Char) : List Char → Option (List Char × List Char)
  | [] => Option.none
  | c :: rest =>
      if c = sep then some ([], rest)
      else
        match splitFirst sep rest with
        | some (a, b) => some (c :: a, b)
        | Option.none => Option.none

/-- urlsplit's scheme extraction: the text before the first colon when it
starts with an ASCII letter and consists of scheme characters, lowercased,
together with the remainder; Option.none when there is no such prefix. -/
def extractScheme (l : List Char) : Option (List Char × List Char) :=
  match splitFirst ':' l with
  | some (before, after) =>
      match before with
      | [] => Option.none
      | c :: _ =>
          if (65 ≤ c.toNat ∧ c.toNat ≤ 90) ∨ (97 ≤ c.toNat ∧ c.toNat ≤ 122) then
            if before.all schemeChar then some (before.map asciiLower, after)
            else Option.none
          else Option.none
  | Option.none => Option.none

/-- A split URL: scheme, netloc, path, query, fragment. This follows
urlsplit; the params component of urlparse is kept inside the path, which
only matters for paths mixing semicolons with dot segments — none occur in
this development. -/
structure UrlParts where
  scheme : List Char
  netloc : List Char
  path : List Char
  query : List Char
  fragment : List Char

/-- urllib.parse.urlsplit with a default scheme and allow_fragments True:
scheme first, then a netloc introduced by two slashes and running up to a
slash, question mark or hash, then the fragment after the first hash, then
the query after the first question mark. -/
def urlsplit (defaultScheme : List Char) (url : List Char) : UrlParts :=
  let su :=
    match extractScheme url with
    | some (s, r) => (s, r)
    | Option.none => (defaultScheme, url)
  let nu :=
    if su.2.take 2 = ['/', '/'] then
      let r := su.2.drop 2
      let nl := r.takeWhile (fun c => ¬ (c = '/' ∨ c = '?' ∨ c = '#'))
      (nl, r.drop nl.length)
    else ([], su.2)
  let uf :=
    match splitFirst '#' nu.2 with
    | some (a, b) => (a, b)
    | Option.none => (nu.2, [])
  let pq :=
    match splitFirst '?' uf.1 with
    | some (a, b) => (a, b)
    | Option.none => (uf.1, [])
  ⟨su.1, nu.1, pq.1, pq.2, uf.2⟩

/-- urllib.parse.urlunsplit. -/
def urlunsplit (p : UrlParts) : List Char :=
  let url := p.path
  let url :=
    if ¬ p.netloc.isEmpty ∨ p.path.take 2 = ['/', '/'] then
      '/' :: '/' :: (p.netloc ++ (if url ≠ [] ∧ url.head? ≠ some '/' then '/' :: url else url))
    else url
  let url := if ¬ p.scheme.isEmpty then p.scheme ++ ':' :: url else url
  let url := if ¬ p.query.isEmpty then url ++ '?' :: p.query else url
  if ¬ p.fragment.isEmpty then url ++ '#' :: p.fragment else url

/-- The uses_relative scheme list of urllib.parse. -/
def usesRelative : List (List Char) :=
  ["", "ftp", "http", "gopher", "nntp", "imap", "wais", "file", "https",
   "shttp", "mms", "prospero", "rtsp", "rtspu", "sftp", "svn", "svn+ssh",
   "ws", "wss"].map String.data

/-- The uses_netloc scheme list of urllib.parse. -/
def usesNetloc : List (List Char) :=
  ["", "ftp", "http", "gopher", "nntp", "telnet", "imap", "wais", "file",
   "mms", "https", "shttp", "snews", "prospero", "rtsp", "rtspu", "rsync",
   "svn", "svn+ssh", "sftp", "nfs", "git", "git+ssh", "ws", "wss",
   "itms-services"].map String.data

/-- The slice assignment segments[1:-1] = filter(None, segments[1:-1]) of
urljoin: empty segments vanish from all but the first and last position. -/
def filterMiddle (segments : List (List Char)) : List (List Char) :=
  match segments with
  | [] => []
  | [x] => [x]
  | x :: rest => x :: (rest.dropLast.filter (fun s => ¬ s.isEmpty) ++ [rest.getLastD []])

/-- The dot-segment resolution loop of urljoin: a double dot pops the last
resolved segment (on nothing, nothing), a single dot vanishes. -/
def resolveSegments (segments : List (List Char)) : List (List Char) :=
  segments.foldl
    (fun acc seg =>
      if seg = ['.', '.'] then acc.dropLast
      else if seg = ['.'] then acc
      else acc ++ [seg]) []

/-- urllib.parse.urljoin on character lists, following CPython: empty base or
url short-circuit; a url with a different scheme (or one outside
uses_relative) is returned as is; a url with its own netloc is rebuilt as is;
an empty path keeps the base path (and base query when the url has none);
otherwise the paths merge with middle-empty filtering and dot-segment
resolution. -/
def urljoinL (base url : List Char) : List Char :=
  if base.isEmpty then url
  else if url.isEmpty then base
  else
    let b := urlsplit [] base
    let u := urlsplit b.scheme url
    if ¬ (u.scheme = b.scheme ∧ u.scheme ∈ usesRelative) then url
    else
      let step :=
        if u.scheme ∈ usesNetloc then
          if ¬ u.netloc.isEmpty then Sum.inl (urlunsplit u)
          else Sum.inr b.netloc
        else Sum.inr u.netloc
      match step with
      | Sum.inl result => result
      | Sum.inr netloc =>
          if u.path.isEmpty then
            let query := if u.query.isEmpty then b.query else u.query
            urlunsplit ⟨u.scheme, netloc, b.path, query, u.fragment⟩
          else
            let baseParts :=
              let bp := pySplit '/' b.path
              if bp.getLastD [] ≠ [] then bp.dropLast else bp
            let segments :=
              if u.path.head? = some '/' then pySplit '/' u.path
              else filterMiddle (baseParts ++ pySplit '/' u.path)
            let resolved := resolveSegments segments
            let resolved :=
              if segments.getLastD [] = ['.'] ∨ segments.getLastD [] = ['.', '.'] then
                resolved ++ [[]]
              else resolved
            let path := pyJoin '/' resolved
            let path := if path.isEmpty then ['/'] else path
            urlunsplit ⟨u.scheme, netloc, path, u.query, u.fragment⟩

/-- urllib.parse.urljoin on strings. -/
def urljoin (base url : String) : String := String.mk (urljoinL base.data url.data)

namespace MoneyBird

/-- The class attribute version of MoneyBird. -/
def version : String := "v2"

/-- The class attribute base_url of MoneyBird. -/
def base_url : String := "https://moneybird.com/api/"

/-- MoneyBird._get_url: urljoins base_url with the version slash, then the
optional administration id slash, then the resource path with a .json
suffix. -/
def get_url (administration_id : Option Int) (resource_path : String) : String :=
  let url := urljoin base_url (version ++ "/")
  let url :=
    match administration_id with
    | some aid => urljoin url (toString aid ++ "/")
    | Option.none => url
  urljoin url (resource_path ++ ".json")

end MoneyBird

/-- The class attribute base_url of OAuthAuthentication. -/
def OAuthAuthentication.base_url : String := "https://moneybird.com/oauth/"

/-- The class attribute auth_url of OAuthAuthentication. -/
def OAuthAuthentication.auth_url : String := "authorize/"

/-- The class attribute token_url of OAuthAuthentication. -/
def OAuthAuthentication.token_url : String := "token/"

/-- OAuthAuthentication.authorize_url: the authorization endpoint joined from
the class attributes, a question mark, and the urlencoded parameters
response_type=code, client_id, redirect_uri, the space-joined scope and the
state — the caller's, or the freshly generated one whose randomness is the
randomBits argument; returns the URL and the state used. -/
def OAuthAuthentication.authorize_url (a : OAuthAuthentication)
    (scope : List String) (state : Option String) (randomBits : Nat) :
    String × String :=
  let url := urljoin OAuthAuthentication.base_url OAuthAuthentication.auth_url
  let st :=
    match state with
    | some s => s
    | Option.none => OAuthAuthentication.generate_state randomBits
  let params := [("response_type", "code"), ("client_id", a.client_id),
                 ("redirect_uri", a.redirect_url),
                 ("scope", String.intercalate " " scope), ("state", st)]
  (url ++ "?" ++ urlencode params, st)

/-- Python split never yields an empty list of parts. -/
theorem pySplit_ne_nil (sep : Char) (l : List Char) : pySplit sep l ≠ [] := by
  induction l with
  | nil => simp [pySplit]
  | cons c l ih =>
    by_cases hc : c = sep
    · simp [pySplit, hc]
    · simp only [pySplit, if_neg hc]
      rcases h : pySplit sep l with _ | ⟨a, b⟩ <;> simp

/-- Splitting on a separator that does not occur leaves one part. -/
theorem pySplit_of_not_mem (sep : Char) (l : List Char) (h : sep ∉ l) :
    pySplit sep l = [l] := by
  induction l with
  | nil => rfl
  | cons c l ih =>
    have hc : ¬ c = sep := fun hh => h (hh ▸ List.mem_cons_self c l)
    have h' : sep ∉ l := fun hh => h (List.mem_cons_of_mem _ hh)
    simp only [pySplit, if_neg hc, ih h']

/-- Splitting an append around a separator the prefix avoids peels the prefix
off as one part. -/
theorem pySplit_append_sep (sep : Char) (p rest : List Char) (hp : sep ∉ p) :
    pySplit sep (p ++ sep :: rest) = p :: pySplit sep rest := by
  induction p with
  | nil => simp [pySplit]
  | cons c p ih =>
    have hc : ¬ c = sep := fun h => hp (h ▸ List.mem_cons_self c p)
    have hp' : sep ∉ p := fun h => hp (List.mem_cons_of_mem _ h)
    simp only [List.cons_append, pySplit, if_neg hc]
    rw [show p.append (sep :: rest) = p ++ sep :: rest from rfl, ih hp']

/-- Joining a nonempty head part onto further parts prepends the head part. -/
theorem pyJoin_cons_cons (sep : Char) (c : Char) (a : List Char)
    (b : List (List Char)) :
    pyJoin sep ((c :: a) :: b) = c :: pyJoin sep (a :: b) := by
  cases b <;> rfl

/-- Joining with an empty first part prepends a separator. -/
theorem pyJoin_nil_cons (sep : Char) (ps : List (List Char)) (h : ps ≠ []) :
    pyJoin sep ([] :: ps) = sep :: pyJoin sep ps := by
  cases ps
  · exact absurd rfl h
  · rfl

/-- Python join is a left inverse of Python split. -/
theorem pyJoin_pySplit (sep : Char) (l : List Char) :
    pyJoin sep (pySplit sep l) = l := by
  induction l with
  | nil => rfl
  | cons c l ih =>
    by_cases hc : c = sep
    · subst hc
      rw [show pySplit c (c :: l) = [] :: pySplit c l by simp [pySplit],
        pyJoin_nil_cons c _ (pySplit_ne_nil c l), ih]
    · rcases h : pySplit sep l with _ | ⟨a, b⟩
      · exact absurd h (pySplit_ne_nil sep l)
      · rw [show pySplit sep (c :: l) = (c :: a) :: b by simp [pySplit, if_neg hc, h],
          pyJoin_cons_cons, ← h, ih]

/-- Python split is a left inverse of Python join when the parts are nonempty
as a list and avoid the separator. -/
theorem pySplit_pyJoin (sep : Char) :
    ∀ parts : List (List Char), parts ≠ [] → (∀ p ∈ parts, sep ∉ p) →
      pySplit sep (pyJoin sep parts) = parts
  | [], h, _ => absurd rfl h
  | [p], _, hs => by
      simpa [pyJoin] using pySplit_of_not_mem sep p (hs p (by simp))
  | p :: q :: parts, _, hs => by
      have h1 : pyJoin sep (p :: q :: parts) = p ++ sep :: pyJoin sep (q :: parts) := rfl
      rw [h1, pySplit_append_sep sep p _ (hs p (by simp)),
        pySplit_pyJoin sep (q :: parts) (by simp) (fun r hr => hs r (by simp [hr]))]

/-- Joining appended part lists joins each and puts one separator between. -/
theorem pyJoin_append (sep : Char) :
    ∀ xs ys : List (List Char), xs ≠ [] → ys ≠ [] →
      pyJoin sep (xs ++ ys) = pyJoin sep xs ++ sep :: pyJoin sep ys
  | [], _, h, _ => absurd rfl h
  | [x], ys, _, hy => by
      rcases ys with _ | ⟨y, ys⟩
      · exact absurd rfl hy
      · rfl
  | x :: x' :: xs, ys, _, hy => by
      have h1 : (x :: x' :: xs) ++ ys = x :: (x' :: xs ++ ys) := rfl
      rw [h1]
      have h2 : pyJoin sep (x :: (x' :: xs ++ ys)) =
          x ++ sep :: pyJoin sep (x' :: xs ++ ys) := by
        rcases xs <;> rfl
      rw [h2, pyJoin_append sep (x' :: xs) ys (by simp) hy]
      simp [pyJoin]

/-- The default of getLastD is irrelevant for a nonempty list. -/
theorem getLastD_of_ne_nil {α : Type} (l : List α) (h : l ≠ []) (d d' : α) :
    l.getLastD d = l.getLastD d' := by
  cases l
  · exact absurd rfl h
  · simp [List.getLastD]

/-- Appending separator-free text splits as the original with the last part
extended. -/
theorem pySplit_append_suffix (sep : Char) (l suffix : List Char)
    (hs : sep ∉ suffix) :
    pySplit sep (l ++ suffix) =
      (pySplit sep l).dropLast ++ [(pySplit sep l).getLastD [] ++ suffix] := by
  induction l with
  | nil => simp [pySplit, pySplit_of_not_mem sep suffix hs, List.getLastD]
  | cons c l ih =>
    by_cases hc : c = sep
    · subst hc
      have hne := pySplit_ne_nil c l
      rw [show (c :: l) ++ suffix = c :: (l ++ suffix) from rfl,
        show pySplit c (c :: (l ++ suffix)) = [] :: pySplit c (l ++ suffix) by
          simp [pySplit],
        ih,
        show pySplit c (c :: l) = [] :: pySplit c l by simp [pySplit]]
      rcases h : pySplit c l with _ | ⟨a, b⟩
      · exact absurd h hne
      · simp [List.getLastD]
    · rcases h : pySplit sep l with _ | ⟨a, b⟩
      · exact absurd h (pySplit_ne_nil sep l)
      · have h2 : pySplit sep (c :: l) = (c :: a) :: b := by
          simp [pySplit, if_neg hc, h]
        rw [show (c :: l) ++ suffix = c :: (l ++ suffix) from rfl]
        have h3 : pySplit sep (c :: (l ++ suffix)) =
            match pySplit sep (l ++ suffix) with
            | [] => [[c]]
            | h :: t => (c :: h) :: t := by
          simp [pySplit, if_neg hc]
        rw [h3, ih, h, h2]
        rcases b with _ | ⟨b0, bs⟩
        · simp [List.getLastD]
        · simp [List.getLastD]

/-- splitFirst misses a separator that does not occur. -/
theorem splitFirst_of_not_mem (sep : Char) (l : List Char) (h : sep ∉ l) :
    splitFirst sep l = Option.none := by
  induction l with
  | nil => rfl
  | cons c l ih =>
    have hc : ¬ c = sep := fun hh => h (hh ▸ List.mem_cons_self c l)
    have h' : sep ∉ l := fun hh => h (List.mem_cons_of_mem _ hh)
    simp only [splitFirst, if_neg hc, ih h']

/-- splitFirst finds the first separator after a separator-free prefix. -/
theorem splitFirst_append (sep : Char) (p rest : List Char) (hp : sep ∉ p) :
    splitFirst sep (p ++ sep :: rest) = some (p, rest) := by
  induction p with
  | nil => simp [splitFirst]
  | cons c p ih =>
    have hc : ¬ c = sep := fun h => hp (h ▸ List.mem_cons_self c p)
    have hp' : sep ∉ p := fun h => hp (List.mem_cons_of_mem _ h)
    simp only [List.cons_append, splitFirst, if_neg hc]
    rw [show p.append (sep :: rest) = p ++ sep :: rest from rfl, ih hp']

/-- takeWhile runs over a prefix it accepts entirely. -/
theorem takeWhile_append_all (p : Char → Bool) (a b : List Char)
    (ha : ∀ c ∈ a, p c = true) : (a ++ b).takeWhile p = a ++ b.takeWhile p := by
  induction a with
  | nil => rfl
  | cons c a ih =>
    simp [List.cons_append, List.takeWhile_cons,
      ha c (List.mem_cons_self c a), ih (fun x hx => ha x (List.mem_cons_of_mem _ hx))]

/-- The dot-resolution loop keeps a dot-free segment list as it is. -/
theorem resolveSegments_of_no_dots (l : List (List Char))
    (h : ∀ s ∈ l, s ≠ ['.'] ∧ s ≠ ['.', '.']) : resolveSegments l = l := by
  have go : ∀ (l' : List (List Char)) (acc : List (List Char)),
      (∀ s ∈ l', s ≠ ['.'] ∧ s ≠ ['.', '.']) →
      l'.foldl (fun acc seg =>
        if seg = ['.', '.'] then acc.dropLast
        else if seg = ['.'] then acc
        else acc ++ [seg]) acc = acc ++ l' := by
    intro l'
    induction l' with
    | nil => intro acc _; simp
    | cons s l' ih =>
      intro acc hh
      have hs := hh s (List.mem_cons_self s l')
      simp only [List.foldl_cons, if_neg hs.2, if_neg hs.1,
        ih (acc ++ [s]) (fun x hx => hh x (List.mem_cons_of_mem _ hx))]
      simp
  simpa using go l [] h

/-- getLastD distributes to a nonempty right append factor. -/
theorem getLastD_append_right {α : Type} (xs ys : List α) (d : α) (h : ys ≠ []) :
    (xs ++ ys).getLastD d = ys.getLastD d := by
  simp [List.getLastD_eq_getLast?, List.getLast?_append_of_ne_nil xs h]

/-- A nonempty list is its dropLast plus its last element. -/
theorem dropLast_append_getLastD {α : Type} (l : List α) (h : l ≠ []) (d : α) :
    l.dropLast ++ [l.getLastD d] = l := by
  cases l with
  | nil => exact absurd rfl h
  | cons a t =>
    simp [List.getLastD_eq_getLast?, ← List.getLast_eq_getLastD]
    exact List.dropLast_append_getLast (by simp)

/-- Every character of a Python join is the separator or from some part. -/
theorem mem_pyJoin (sep : Char) :
    ∀ (parts : List (List Char)) (c : Char), c ∈ pyJoin sep parts →
      c = sep ∨ ∃ p ∈ parts, c ∈ p
  | [], c, h => by cases h
  | [x], c, h => Or.inr ⟨x, by simp, h⟩
  | x :: x' :: parts, c, h => by
      rcases List.mem_append.1 h with h1 | h1
      · exact Or.inr ⟨x, by simp, h1⟩
      · rcases List.mem_cons.1 h1 with rfl | h2
        · exact Or.inl rfl
        · rcases mem_pyJoin sep (x' :: parts) c h2 with h3 | ⟨p, hp, hc⟩
          · exact Or.inl h3
          · exact Or.inr ⟨p, by simp [List.mem_cons.1 hp], hc⟩

/-- Parsing this client's base URLs: an https URL on the vendor host with an
absolute path free of question marks and hashes splits into exactly those
parts. -/
theorem urlsplit_base (bp2 : List Char) (hq : '?' ∉ bp2) (hh : '#' ∉ bp2) :
    urlsplit [] ("https://moneybird.com".data ++ '/' :: bp2) =
      ⟨"https".data, "moneybird.com".data, '/' :: bp2, [], []⟩ := by
  have hscheme : extractScheme ("https://moneybird.com".data ++ '/' :: bp2) =
      some ("https".data, "//moneybird.com".data ++ '/' :: bp2) := by
    have hbase : "https://moneybird.com".data ++ '/' :: bp2 =
        "https".data ++ ':' :: ("//moneybird.com".data ++ '/' :: bp2) := by simp
    rw [hbase]
    unfold extractScheme
    rw [splitFirst_append ':' "https".data _ (by decide)]
    rfl
  have htw : ("moneybird.com".data ++ '/' :: bp2).takeWhile
      (fun c => ¬ (c = '/' ∨ c = '?' ∨ c = '#')) = "moneybird.com".data := by
    rw [takeWhile_append_all _ _ _ (by decide)]
    simp [List.takeWhile_cons]
  have hfrag : splitFirst '#' ('/' :: bp2) = Option.none :=
    splitFirst_of_not_mem _ _ (by simp [hh])
  have hqry : splitFirst '?' ('/' :: bp2) = Option.none :=
    splitFirst_of_not_mem _ _ (by simp [hq])
  simp only [urlsplit, hscheme]
  rw [show ("//moneybird.com".data ++ '/' :: bp2) =
      '/' :: '/' :: ("moneybird.com".data ++ '/' :: bp2) from rfl]
  simp [List.take, List.drop, htw, hfrag, hqry]

/-- Parsing a plain relative reference against a default scheme: everything
is path. -/
theorem urlsplit_rel (ds rel : List Char) (hne : rel ≠ [])
    (hhead : rel.head? ≠ some '/')
    (hc : ':' ∉ rel) (hq : '?' ∉ rel) (hh : '#' ∉ rel) :
    urlsplit ds rel = ⟨ds, [], rel, [], []⟩ := by
  have hscheme : extractScheme rel = Option.none := by
    unfold extractScheme
    rw [splitFirst_of_not_mem ':' rel hc]
  have htake : ¬ rel.take 2 = ['/', '/'] := by
    rcases rel with _ | ⟨c, r⟩
    · simp
    · have hcne : c ≠ '/' := by simpa using hhead
      rcases r <;> simp [List.take, hcne]
  have hfrag : splitFirst '#' rel = Option.none := splitFirst_of_not_mem _ _ hh
  have hqry : splitFirst '?' rel = Option.none := splitFirst_of_not_mem _ _ hq
  simp [urlsplit, hscheme, htake, hfrag, hqry]

/-- Unfolding of filterMiddle on a head followed by a nonempty rest. -/
theorem filterMiddle_cons (x : List Char) (rest : List (List Char)) (h : rest ≠ []) :
    filterMiddle (x :: rest) =
      x :: (rest.dropLast.filter (fun s => ¬ s.isEmpty) ++ [rest.getLastD []]) := by
  cases rest
  · exact absurd rfl h
  · rfl

/-- The central concatenation property of urljoin on this client's URLs: for
a base of https://moneybird.com followed by a slash-delimited path of plain
nonempty segments ending in a slash, and a plain relative reference (nonempty,
not rooted, no colon, question mark or hash, with no empty or dot segments
except possibly a trailing empty one), joining is string concatenation. -/
theorem urljoin_concat (mid : List (List Char)) (rel : List Char)
    (hmid : ∀ s ∈ mid, s ≠ [] ∧ s ≠ ['.'] ∧ s ≠ ['.', '.'] ∧
       '/' ∉ s ∧ '?' ∉ s ∧ '#' ∉ s)
    (hrel_ne : rel ≠ [])
    (hrel_head : rel.head? ≠ some '/')
    (hrel_colon : ':' ∉ rel) (hrel_q : '?' ∉ rel) (hrel_hash : '#' ∉ rel)
    (hrel_segs : ∀ s ∈ (pySplit '/' rel).dropLast, s ≠ [] ∧ s ≠ ['.'] ∧ s ≠ ['.', '.'])
    (hrel_last : (pySplit '/' rel).getLastD [] ≠ ['.'] ∧
       (pySplit '/' rel).getLastD [] ≠ ['.', '.']) :
    urljoinL ("https://moneybird.com".data ++ pyJoin '/' ([] :: mid ++ [[]])) rel =
      "https://moneybird.com".data ++ pyJoin '/' ([] :: mid ++ [[]]) ++ rel := by
  have hsplitJoin : pyJoin '/' ([] :: mid ++ [[]]) = '/' :: pyJoin '/' (mid ++ [[]]) := by
    rw [show ([] : List Char) :: mid ++ [[]] = [] :: (mid ++ [[]]) from rfl,
      pyJoin_nil_cons '/' _ (by simp)]
  set bp2 := pyJoin '/' (mid ++ [[]]) with hbp2def
  have hrne : pySplit '/' rel ≠ [] := pySplit_ne_nil '/' rel
  have hbp2q : '?' ∉ bp2 := by
    intro hc
    rcases mem_pyJoin '/' _ _ hc with h | ⟨p, hp, hcp⟩
    · exact absurd h (by decide)
    · rcases List.mem_append.1 hp with hp | hp
      · exact absurd hcp (hmid p hp).2.2.2.2.1
      · simp at hp; subst hp; cases hcp
  have hbp2h : '#' ∉ bp2 := by
    intro hc
    rcases mem_pyJoin '/' _ _ hc with h | ⟨p, hp, hcp⟩
    · exact absurd h (by decide)
    · rcases List.mem_append.1 hp with hp | hp
      · exact absurd hcp (hmid p hp).2.2.2.2.2
      · simp at hp; subst hp; cases hcp
  have hbase := urlsplit_base bp2 hbp2q hbp2h
  have hrelsplit := urlsplit_rel "https".data rel hrel_ne hrel_head hrel_colon hrel_q hrel_hash
  have hbaseparts : pySplit '/' ('/' :: bp2) = [] :: (mid ++ [[]]) := by
    rw [show ('/' :: bp2) = pyJoin '/' ([] :: (mid ++ [[]])) from by
      rw [← hsplitJoin]; rfl]
    refine pySplit_pyJoin '/' _ (by simp) ?_
    intro p hp
    rcases List.mem_cons.1 hp with rfl | hp
    · simp
    · rcases List.mem_append.1 hp with h | h
      · exact (hmid p h).2.2.2.1
      · simp at h; subst h; simp
  have hfm : filterMiddle (([] :: (mid ++ [[]])) ++ pySplit '/' rel) =
      [] :: (mid ++ pySplit '/' rel) := by
    rw [show (([] :: (mid ++ [[]])) ++ pySplit '/' rel) =
        [] :: ((mid ++ [[]]) ++ pySplit '/' rel) from rfl,
      filterMiddle_cons _ _ (by simp [hrne]),
      List.dropLast_append_of_ne_nil _ hrne,
      getLastD_append_right _ _ _ hrne]
    have hf1 : List.filter (fun s => ¬ s.isEmpty) mid = mid :=
      List.filter_eq_self.mpr (fun s hs => by simpa using (hmid s hs).1)
    have hf2 : List.filter (fun s => ¬ s.isEmpty) (pySplit '/' rel).dropLast =
        (pySplit '/' rel).dropLast :=
      List.filter_eq_self.mpr (fun s hs => by simpa using (hrel_segs s hs).1)
    have hfilter : List.filter (fun s => ¬ s.isEmpty)
        ((mid ++ [[]]) ++ (pySplit '/' rel).dropLast) =
        mid ++ (pySplit '/' rel).dropLast := by
      rw [List.filter_append, List.filter_append, hf1, hf2]
      simp
    rw [hfilter, List.append_assoc, dropLast_append_getLastD _ hrne]
  have hres : resolveSegments ([] :: (mid ++ pySplit '/' rel)) =
      [] :: (mid ++ pySplit '/' rel) := by
    refine resolveSegments_of_no_dots _ ?_
    intro s hs
    rcases List.mem_cons.1 hs with rfl | hs
    · exact ⟨by simp, by simp⟩
    · rcases List.mem_append.1 hs with h | h
      · exact ⟨(hmid s h).2.1, (hmid s h).2.2.1⟩
      · have h2 : s ∈ (pySplit '/' rel).dropLast ++ [(pySplit '/' rel).getLastD []] := by
          rw [dropLast_append_getLastD _ hrne]; exact h
        rcases List.mem_append.1 h2 with h3 | h3
        · exact ⟨(hrel_segs s h3).2.1, (hrel_segs s h3).2.2⟩
        · rcases List.mem_singleton.1 h3 with rfl; exact hrel_last
  have hrelJoin : pyJoin '/' (pySplit '/' rel) = rel := pyJoin_pySplit '/' rel
  have hpath : pyJoin '/' ([] :: (mid ++ pySplit '/' rel)) = ('/' :: bp2) ++ rel := by
    rw [show ([] : List Char) :: (mid ++ pySplit '/' rel) =
        ([] :: mid) ++ pySplit '/' rel from rfl,
      pyJoin_append '/' ([] :: mid) _ (by simp) hrne, hrelJoin,
      show ('/' :: bp2) = pyJoin '/' ([] :: (mid ++ [[]])) from by rw [← hsplitJoin]; rfl,
      show ([] : List Char) :: (mid ++ [[]]) = ([] :: mid) ++ [[]] from rfl,
      pyJoin_append '/' ([] :: mid) [[]] (by simp) (by simp)]
    simp [pyJoin]
  have hsegl : (([] : List Char) :: (mid ++ pySplit '/' rel)).getLastD [] =
      (pySplit '/' rel).getLastD [] := by
    rw [show ([] : List Char) :: (mid ++ pySplit '/' rel) =
        ([] :: mid) ++ pySplit '/' rel from rfl,
      getLastD_append_right _ _ _ hrne]
  have hlastnil : (([] : List Char) :: (mid ++ [[]])).getLastD [] = [] := by
    rw [show ([] : List Char) :: (mid ++ [[]]) = ([] :: mid) ++ [[]] from rfl,
      getLastD_append_right _ _ _ (by simp)]
    rfl
  have hur : ("https".data ∈ usesRelative) := by decide
  have hun : ("https".data ∈ usesNetloc) := by decide
  have hfin : urlunsplit ⟨"https".data, "moneybird.com".data, ('/' :: bp2) ++ rel, [], []⟩ =
      "https://moneybird.com".data ++ '/' :: bp2 ++ rel := by
    simp [urlunsplit]
  have hbne : ("https://moneybird.com".data ++ '/' :: bp2).isEmpty = false := by simp
  have hrelne2 : rel.isEmpty = false := by
    cases rel
    · exact absurd rfl hrel_ne
    · rfl
  have hpne : ((('/' :: bp2) ++ rel).isEmpty) = false := rfl
  rw [show ("https://moneybird.com".data ++ pyJoin '/' ([] :: mid ++ [[]])) =
      "https://moneybird.com".data ++ '/' :: bp2 from by rw [hsplitJoin]]
  simp only [urljoinL]
  rw [hbase, hrelsplit]
  simp only [hbne, hrelne2, hur, hun, hrel_head, hbaseparts, hlastnil,
    if_neg (show ¬ (([] : List Char) ≠ []) from fun h => h rfl), if_false,
    hfm, hres, hsegl, hpath, hpne, hrel_last.1, hrel_last.2, hfin]
  simp only [Bool.false_eq_true, if_false, and_self, not_true, List.isEmpty_nil,
    not_false_eq_true, if_true, or_self, hpath, hpne, hfin]

/-- toDigitsCore prepends decimal digit characters, at least one when it has
fuel. -/
theorem toDigitsCore_spec : ∀ (fuel n : Nat) (ds : List Char),
    ∃ extra : List Char, Nat.toDigitsCore 10 fuel n ds = extra ++ ds ∧
      (∀ c ∈ extra, c.isDigit = true) ∧ (fuel ≠ 0 → extra ≠ [])
  | 0, n, ds => ⟨[], rfl, by simp, fun h => absurd rfl h⟩
  | fuel + 1, n, ds => by
      have hd : (Nat.digitChar (n % 10)).isDigit = true :=
        (by decide : ∀ m < 10, (Nat.digitChar m).isDigit = true) _
          (Nat.mod_lt _ (by omega))
      rw [show Nat.toDigitsCore 10 (fuel + 1) n ds =
          (if n / 10 = 0 then Nat.digitChar (n % 10) :: ds
           else Nat.toDigitsCore 10 fuel (n / 10) (Nat.digitChar (n % 10) :: ds)) from rfl]
      by_cases h0 : n / 10 = 0
      · exact ⟨[Nat.digitChar (n % 10)], by simp [h0], by simpa using hd, by simp⟩
      · obtain ⟨extra, he, hdig, _⟩ := toDigitsCore_spec fuel (n / 10) (Nat.digitChar (n % 10) :: ds)
        refine ⟨extra ++ [Nat.digitChar (n % 10)], ?_, ?_, by simp⟩
        · rw [if_neg h0, he]; simp
        · intro c hc
          rcases List.mem_append.1 hc with h | h
          · exact hdig c h
          · rcases List.mem_singleton.1 h with rfl; exact hd

/-- The decimal rendering of an integer is a nonempty string of digits and
minus signs. -/
theorem int_toString_chars (i : Int) :
    (toString i).data ≠ [] ∧ ∀ c ∈ (toString i).data, c.isDigit = true ∨ c = '-' := by
  cases i with
  | ofNat n =>
    obtain ⟨extra, he, hdig, hne⟩ := toDigitsCore_spec (n + 1) n []
    have h2 : (toString (Int.ofNat n)).data = extra := by
      rw [show toString (Int.ofNat n) = (Nat.toDigitsCore 10 (n + 1) n []).asString from rfl,
        he]
      simp only [List.append_nil]
      rfl
    rw [h2]
    exact ⟨hne (by omega), fun c hc => Or.inl (hdig c hc)⟩
  | negSucc n =>
    obtain ⟨extra, he, hdig, hne⟩ := toDigitsCore_spec (n + 2) (n + 1) []
    have h2 : (toString (Int.negSucc n)).data = '-' :: extra := by
      rw [show toString (Int.negSucc n) =
          "-" ++ (Nat.toDigitsCore 10 (n + 2) (n + 1) []).asString from rfl, he]
      simp only [List.append_nil, String.data_append]
      rfl
    rw [h2]
    refine ⟨by simp, ?_⟩
    intro c hc
    rcases List.mem_cons.1 hc with rfl | hc
    · exact Or.inr rfl
    · exact Or.inl (hdig c hc)

/-- A nonempty run of digits and minus signs is a plain path segment: not a
dot segment and free of the URL delimiter characters, with a head that is not
a slash. -/
theorem digitsSeg_props (l : List Char) (hne : l ≠ [])
    (hd : ∀ c ∈ l, c.isDigit = true ∨ c = '-') :
    l ≠ ['.'] ∧ l ≠ ['.', '.'] ∧ '/' ∉ l ∧ '?' ∉ l ∧ '#' ∉ l ∧ ':' ∉ l ∧
    l.head? ≠ some '/' := by
  have hnc : ∀ c ∈ l, ¬ (c = '/' ∨ c = '?' ∨ c = '#' ∨ c = ':' ∨ c = '.') := by
    intro c hc hbad
    rcases hd c hc with h | h <;>
      rcases hbad with rfl | rfl | rfl | rfl | rfl <;> simp_all
  refine ⟨?_, ?_, ?_, ?_, ?_, ?_, ?_⟩
  · intro h; subst h; exact hnc '.' (by simp) (by simp)
  · intro h; subst h; exact hnc '.' (by simp) (by simp)
  · intro h; exact hnc '/' h (by simp)
  · intro h; exact hnc '?' h (by simp)
  · intro h; exact hnc '#' h (by simp)
  · intro h; exact hnc ':' h (by simp)
  · rcases l with _ | ⟨c, r⟩
    · simp
    · intro h
      simp only [List.head?] at h
      have := hnc c (by simp) (Or.inl (by injection h))
      exact this

/-- The relative-reference conditions of urljoin_concat hold for a plain
resource path with the .json suffix appended. -/
theorem relConds_json (rpl : List Char)
    (h1 : rpl ≠ []) (h2 : rpl.head? ≠ some '/')
    (h3 : ':' ∉ rpl) (h4 : '?' ∉ rpl) (h5 : '#' ∉ rpl)
    (h6 : ∀ s ∈ pySplit '/' rpl, s ≠ [] ∧ s ≠ ['.'] ∧ s ≠ ['.', '.']) :
    rpl ++ ".json".data ≠ [] ∧ (rpl ++ ".json".data).head? ≠ some '/' ∧
    ':' ∉ rpl ++ ".json".data ∧ '?' ∉ rpl ++ ".json".data ∧ '#' ∉ rpl ++ ".json".data ∧
    (∀ s ∈ (pySplit '/' (rpl ++ ".json".data)).dropLast,
       s ≠ [] ∧ s ≠ ['.'] ∧ s ≠ ['.', '.']) ∧
    (pySplit '/' (rpl ++ ".json".data)).getLastD [] ≠ ['.'] ∧
    (pySplit '/' (rpl ++ ".json".data)).getLastD [] ≠ ['.', '.'] := by
  have hsplit : pySplit '/' (rpl ++ ".json".data) =
      (pySplit '/' rpl).dropLast ++ [(pySplit '/' rpl).getLastD [] ++ ".json".data] :=
    pySplit_append_suffix '/' _ _ (by decide)
  have hlast : (pySplit '/' (rpl ++ ".json".data)).getLastD [] =
      (pySplit '/' rpl).getLastD [] ++ ".json".data := by
    rw [hsplit, getLastD_append_right _ _ _ (by simp)]
    rfl
  refine ⟨by simp, ?_, ?_, ?_, ?_, ?_, ?_, ?_⟩
  · rcases rpl with _ | ⟨c, r⟩
    · exact absurd rfl h1
    · simpa using h2
  · intro h
    rcases List.mem_append.1 h with h | h
    · exact h3 h
    · revert h; decide
  · intro h
    rcases List.mem_append.1 h with h | h
    · exact h4 h
    · revert h; decide
  · intro h
    rcases List.mem_append.1 h with h | h
    · exact h5 h
    · revert h; decide
  · rw [hsplit, List.dropLast_concat]
    exact fun s hs => h6 s (List.dropLast_subset _ hs)
  · rw [hlast]
    intro h
    have hlen := congrArg List.length h
    simp [List.length_append] at hlen
  · rw [hlast]
    intro h
    have hlen := congrArg List.length h
    simp [List.length_append] at hlen

example : "https://moneybird.com".data ++ pyJoin '/' ([] :: ["api".data, "v2".data] ++ [[]]) = "https://moneybird.com/api/v2/".data := rfl
example (aid : Int) (rp : String) : (MoneyBird.get_url (some aid) rp) = urljoin (urljoin "https://moneybird.com/api/v2/" (toString aid ++ "/")) (rp ++ ".json") := rfl
example (l : List Char) : (String.mk l).data = l := rfl

/-- head? looks only at a nonempty left append factor. -/
theorem head?_append_left {α : Type} (l l' : List α) (h : l ≠ []) :
    (l ++ l').head? = l.head? := by
  cases l
  · exact absurd rfl h
  · rfl

/-- C6 amended: _get_url is plain concatenation — base_url, version, slash,
the optional administration id and slash, the resource path, .json — for
every administration id and every resource path that is a plain relative
reference: nonempty, not starting with a slash, free of colon, question mark
and hash, and with no empty, single-dot or double-dot slash-segments. (For
other resource paths urljoin's resolution rules apply instead, as the
counterexample shows.) -/
theorem c6_amended_get_url (aid : Int) (rp : String)
    (h1 : rp.data ≠ []) (h2 : rp.data.head? ≠ some '/')
    (h3 : ':' ∉ rp.data) (h4 : '?' ∉ rp.data) (h5 : '#' ∉ rp.data)
    (h6 : ∀ s ∈ pySplit '/' rp.data, s ≠ [] ∧ s ≠ ['.'] ∧ s ≠ ['.', '.']) :
    MoneyBird.get_url Option.none rp =
      MoneyBird.base_url ++ MoneyBird.version ++ "/" ++ rp ++ ".json" ∧
    MoneyBird.get_url (some aid) rp =
      MoneyBird.base_url ++ MoneyBird.version ++ "/" ++ toString aid ++ "/" ++ rp ++ ".json" := by
  obtain ⟨rpl⟩ := rp
  simp only [show (String.mk rpl).data = rpl from rfl] at h1 h2 h3 h4 h5 h6
  obtain ⟨hjne, hjhead, hjc, hjq, hjh, hjsegs, hjl1, hjl2⟩ :=
    relConds_json rpl h1 h2 h3 h4 h5 h6
  obtain ⟨hdne, hdchars⟩ := int_toString_chars aid
  obtain ⟨hd1, hd2, hd3, hd4, hd5, hd6, hd7⟩ := digitsSeg_props _ hdne hdchars
  have hnone : urljoinL "https://moneybird.com/api/v2/".data (rpl ++ ".json".data) =
      "https://moneybird.com/api/v2/".data ++ (rpl ++ ".json".data) := by
    have h := urljoin_concat ["api".data, "v2".data] (rpl ++ ".json".data)
      (by decide) hjne hjhead hjc hjq hjh hjsegs ⟨hjl1, hjl2⟩
    rwa [show "https://moneybird.com".data ++
        pyJoin '/' ([] :: ["api".data, "v2".data] ++ [[]]) =
        "https://moneybird.com/api/v2/".data from rfl] at h
  have hsplitd : pySplit '/' ((toString aid).data ++ ['/']) = [(toString aid).data, []] := by
    rw [show (toString aid).data ++ ['/'] = (toString aid).data ++ '/' :: [] from rfl,
      pySplit_append_sep '/' _ [] hd3]
    rfl
  have hadm1 : urljoinL "https://moneybird.com/api/v2/".data ((toString aid).data ++ ['/']) =
      "https://moneybird.com/api/v2/".data ++ ((toString aid).data ++ ['/']) := by
    have h := urljoin_concat ["api".data, "v2".data] ((toString aid).data ++ ['/'])
      (by decide) (by simp [hdne])
      (by rw [head?_append_left _ _ hdne]; exact hd7)
      (by intro h; rcases List.mem_append.1 h with h | h
          · exact hd6 h
          · revert h; decide)
      (by intro h; rcases List.mem_append.1 h with h | h
          · exact hd4 h
          · revert h; decide)
      (by intro h; rcases List.mem_append.1 h with h | h
          · exact hd5 h
          · revert h; decide)
      (by rw [hsplitd]
          intro s hs
          rcases List.mem_singleton.1 (by simpa using hs) with rfl
          exact ⟨hdne, hd1, hd2⟩)
      (by rw [hsplitd]; exact ⟨by simp [List.getLastD], by simp [List.getLastD]⟩)
    rwa [show "https://moneybird.com".data ++
        pyJoin '/' ([] :: ["api".data, "v2".data] ++ [[]]) =
        "https://moneybird.com/api/v2/".data from rfl] at h
  have hadm2 : urljoinL ("https://moneybird.com/api/v2/".data ++ ((toString aid).data ++ ['/']))
      (rpl ++ ".json".data) =
      "https://moneybird.com/api/v2/".data ++ ((toString aid).data ++ ['/']) ++
        (rpl ++ ".json".data) := by
    have hbase2 : "https://moneybird.com/api/v2/".data ++ ((toString aid).data ++ ['/']) =
        "https://moneybird.com".data ++
          pyJoin '/' ([] :: ["api".data, "v2".data, (toString aid).data] ++ [[]]) := by
      simp [pyJoin]
    have hmid : ∀ s ∈ ["api".data, "v2".data, (toString aid).data],
        s ≠ [] ∧ s ≠ ['.'] ∧ s ≠ ['.', '.'] ∧ '/' ∉ s ∧ '?' ∉ s ∧ '#' ∉ s := by
      intro s hs
      rcases (by simpa using hs : s = "api".data ∨ s = "v2".data ∨ s = (toString aid).data)
        with rfl | rfl | rfl
      · exact ⟨by decide, by decide, by decide, by decide, by decide, by decide⟩
      · exact ⟨by decide, by decide, by decide, by decide, by decide, by decide⟩
      · exact ⟨hdne, hd1, hd2, hd3, hd4, hd5⟩
    have h := urljoin_concat ["api".data, "v2".data, (toString aid).data]
      (rpl ++ ".json".data) hmid hjne hjhead hjc hjq hjh hjsegs ⟨hjl1, hjl2⟩
    rw [hbase2]
    exact h
  constructor
  · have hred : MoneyBird.get_url Option.none (String.mk rpl) =
        String.mk (urljoinL "https://moneybird.com/api/v2/".data (rpl ++ ".json".data)) := rfl
    rw [hred, hnone]
    apply String.ext
    simp [MoneyBird.base_url, MoneyBird.version, String.data_append]
  · have hred : MoneyBird.get_url (some aid) (String.mk rpl) =
        String.mk (urljoinL
          (urljoinL "https://moneybird.com/api/v2/".data ((toString aid).data ++ ['/']))
          (rpl ++ ".json".data)) := rfl
    rw [hred, hadm1, hadm2]
    apply String.ext
    simp [MoneyBird.base_url, MoneyBird.version, String.data_append]

/-- C6 as frozen is wrong for resource paths that are not plain relative
references: a resource path starting with a slash makes urljoin discard the
whole API path instead of concatenating. -/
theorem c6_counterexample_rooted_path :
    MoneyBird.get_url Option.none "/x" = "https://moneybird.com/x.json" ∧
    MoneyBird.get_url Option.none "/x" ≠
      MoneyBird.base_url ++ MoneyBird.version ++ "/" ++ "/x" ++ ".json" := by
  constructor
  · rfl
  · decide

/-- Witness for the amended C6 at concrete inputs: a two-segment resource
path, without and with an administration id. -/
theorem c6_amended_get_url_witness :
    MoneyBird.get_url Option.none "contacts/synchronization" =
      MoneyBird.base_url ++ MoneyBird.version ++ "/" ++ "contacts/synchronization" ++
        ".json" ∧
    MoneyBird.get_url (some 123) "contacts/synchronization" =
      MoneyBird.base_url ++ MoneyBird.version ++ "/" ++ toString (123 : Int) ++ "/" ++
        "contacts/synchronization" ++ ".json" :=
  c6_amended_get_url 123 "contacts/synchronization" (by decide) (by decide) (by decide)
    (by decide) (by decide) (by decide)

/-- Unfolding lemma for the decode loop: a well-formed percent escape feeds its byte to the UTF-8 decoder. -/
theorem unquoteAux_pct (s : Utf8State) (h1 h2 : Char) (rest : List Char) (a b : Nat)
    (ha : hexVal? h1 = some a) (hb : hexVal? h2 = some b) :
    unquoteAux s ('%' :: h1 :: h2 :: rest) =
      (utf8Step s (16 * a + b)).1 ++ unquoteAux (utf8Step s (16 * a + b)).2 rest := by
  simp only [unquoteAux, ha, hb]

/-- Unfolding lemma for the decode loop on a character that is not a percent sign: ASCII characters pass through the byte decoder, others flush it and are emitted directly. -/
theorem unquoteAux_lit (s : Utf8State) (c : Char) (rest : List Char) (hc : ¬ c = '%') :
    unquoteAux s (c :: rest) =
      if c.toNat < 0x80 then
        (utf8Step s c.toNat).1 ++ unquoteAux (utf8Step s c.toNat).2 rest
      else s.flush ++ c :: unquoteAux Utf8State.empty rest := by
  rw [unquoteAux.eq_def]
  split
  · rename_i heq
    exact absurd heq (by simp)
  · rename_i h1 h2 r heq
    exact absurd (List.cons.inj heq).1 hc
  · rename_i a b hfn heq
    obtain ⟨rfl, rfl⟩ := List.cons.inj heq
    rfl

/-- Parsing an uppercase hexadecimal digit recovers the nibble it renders. -/
theorem hexVal?_hexUpperChar : ∀ m < 16, hexVal? (hexUpperChar m) = some m := by decide

/-- Mapping a function that fixes every element of a list is the identity. -/
theorem mapFix {α : Type} (f : α → α) : ∀ l : List α, (∀ x ∈ l, f x = x) → l.map f = l
  | [], _ => rfl
  | x :: l, h => by
      rw [List.map_cons, h x (by simp), mapFix f l (fun y hy => h y (by simp [hy]))]

/-- Code points of Lean characters avoid the surrogate range and stay below 0x110000, exactly the code points Python strings hold. -/
theorem char_toNat_valid (c : Char) :
    c.toNat < 0xD800 ∨ (0xDFFF < c.toNat ∧ c.toNat < 0x110000) := c.valid

/-- Feeding a byte to the empty decoder state starts a new sequence. -/
theorem utf8Step_empty (b : Nat) : utf8Step Utf8State.empty b = utf8Lead b := rfl

/-- Feeding the last expected continuation byte, when in range, emits the accumulated code point. -/
theorem utf8Step_cont_done (acc lo hi b : Nat) (h1 : lo ≤ b) (h2 : b ≤ hi) :
    utf8Step ⟨1, acc, lo, hi⟩ b = ([Char.ofNat (acc * 64 + (b - 0x80))], Utf8State.empty) := by
  simp only [utf8Step]
  rw [if_neg (by omega), if_pos ⟨h1, h2⟩]; simp

/-- Feeding an in-range continuation byte with more still expected accumulates it. -/
theorem utf8Step_cont_more (k acc lo hi b : Nat) (h1 : lo ≤ b) (h2 : b ≤ hi) (hk : 2 ≤ k) :
    utf8Step ⟨k, acc, lo, hi⟩ b = ([], ⟨k - 1, acc * 64 + (b - 0x80), 0x80, 0xBF⟩) := by
  simp only [utf8Step]
  rw [if_neg (by omega), if_pos ⟨h1, h2⟩, if_neg (by omega)]

/-- Evaluation of the lead-byte dispatch on an ASCII byte. -/
theorem utf8Lead_ascii (b : Nat) (h : b < 0x80) :
    utf8Lead b = ([Char.ofNat b], Utf8State.empty) := by
  unfold utf8Lead
  rw [if_pos h]

/-- Evaluation of the lead-byte dispatch on a two-byte sequence lead. -/
theorem utf8Lead_2 (b : Nat) (h1 : 0xC2 ≤ b) (h2 : b < 0xE0) :
    utf8Lead b = ([], ⟨1, b - 0xC0, 0x80, 0xBF⟩) := by
  have e1 : ¬ b < 0x80 := by omega
  have e2 : ¬ b < 0xC2 := by omega
  unfold utf8Lead
  rw [if_neg e1, if_neg e2, if_pos h2]

/-- Evaluation of the lead-byte dispatch on the lead byte 0xE0, whose first continuation range is restricted. -/
theorem utf8Lead_E0 : utf8Lead 0xE0 = ([], ⟨2, 0, 0xA0, 0xBF⟩) := rfl

/-- Evaluation of the lead-byte dispatch on a three-byte lead between 0xE1 and 0xEC. -/
theorem utf8Lead_3mid (b : Nat) (h1 : 0xE1 ≤ b) (h2 : b ≤ 0xEC) :
    utf8Lead b = ([], ⟨2, b - 0xE0, 0x80, 0xBF⟩) := by
  have e1 : ¬ b < 0x80 := by omega
  have e2 : ¬ b < 0xC2 := by omega
  have e3 : ¬ b < 0xE0 := by omega
  have e4 : ¬ b = 0xE0 := by omega
  have e5 : b < 0xED := by omega
  unfold utf8Lead
  rw [if_neg e1, if_neg e2, if_neg e3, if_neg e4, if_pos e5]

/-- Evaluation of the lead-byte dispatch on the lead byte 0xED, whose first continuation range excludes surrogates. -/
theorem utf8Lead_ED : utf8Lead 0xED = ([], ⟨2, 0xD, 0x80, 0x9F⟩) := rfl

/-- Evaluation of the lead-byte dispatch on the three-byte leads 0xEE and 0xEF. -/
theorem utf8Lead_3hi (b : Nat) (h1 : 0xEE ≤ b) (h2 : b ≤ 0xEF) :
    utf8Lead b = ([], ⟨2, b - 0xE0, 0x80, 0xBF⟩) := by
  have e1 : ¬ b < 0x80 := by omega
  have e2 : ¬ b < 0xC2 := by omega
  have e3 : ¬ b < 0xE0 := by omega
  have e4 : ¬ b = 0xE0 := by omega
  have e5 : ¬ b < 0xED := by omega
  have e6 : ¬ b = 0xED := by omega
  have e7 : b < 0xF0 := by omega
  unfold utf8Lead
  rw [if_neg e1, if_neg e2, if_neg e3, if_neg e4, if_neg e5, if_neg e6, if_pos e7]

/-- Evaluation of the lead-byte dispatch on the lead byte 0xF0, whose first continuation range is restricted. -/
theorem utf8Lead_F0 : utf8Lead 0xF0 = ([], ⟨3, 0, 0x90, 0xBF⟩) := rfl

/-- Evaluation of the lead-byte dispatch on a four-byte lead between 0xF1 and 0xF3. -/
theorem utf8Lead_4mid (b : Nat) (h1 : 0xF1 ≤ b) (h2 : b ≤ 0xF3) :
    utf8Lead b = ([], ⟨3, b - 0xF0, 0x80, 0xBF⟩) := by
  have e1 : ¬ b < 0x80 := by omega
  have e2 : ¬ b < 0xC2 := by omega
  have e3 : ¬ b < 0xE0 := by omega
  have e4 : ¬ b = 0xE0 := by omega
  have e5 : ¬ b < 0xED := by omega
  have e6 : ¬ b = 0xED := by omega
  have e7 : ¬ b < 0xF0 := by omega
  have e8 : ¬ b = 0xF0 := by omega
  have e9 : b < 0xF4 := by omega
  unfold utf8Lead
  rw [if_neg e1, if_neg e2, if_neg e3, if_neg e4, if_neg e5, if_neg e6, if_neg e7,
    if_neg e8, if_pos e9]

/-- Evaluation of the lead-byte dispatch on the lead byte 0xF4, the last lead of valid code points. -/
theorem utf8Lead_F4 : utf8Lead 0xF4 = ([], ⟨3, 4, 0x80, 0x8F⟩) := rfl

/-- The percent escape of a byte feeds that byte to the UTF-8 decoder. -/
theorem unquoteAux_escape (s : Utf8State) (b : Nat) (hb : b < 256) (rest : List Char) :
    unquoteAux s (pctEscape b ++ rest) =
      (utf8Step s b).1 ++ unquoteAux (utf8Step s b).2 rest := by
  show unquoteAux s ('%' :: hexUpperChar (b / 16) :: hexUpperChar (b % 16) :: rest) = _
  rw [unquoteAux_pct s _ _ rest (b / 16) (b % 16)
      (hexVal?_hexUpperChar _ (by omega)) (hexVal?_hexUpperChar _ (by omega))]
  rw [show 16 * (b / 16) + b % 16 = b from by omega]

/-- Uppercase hexadecimal digits are not plus signs, so the plus-to-space pass fixes them. -/
theorem hexUpperChar_fix : ∀ m < 16, plusToSpace (hexUpperChar m) = hexUpperChar m := by decide

/-- The plus-to-space pass fixes every percent escape. -/
theorem pctEscape_map (b : Nat) (hb : b < 256) :
    (pctEscape b).map plusToSpace = pctEscape b := by
  unfold pctEscape
  rw [List.map_cons, List.map_cons, List.map_cons, List.map_nil,
    hexUpperChar_fix _ (by omega), hexUpperChar_fix _ (by omega)]
  rfl

/-- Decoding one escaped in-range continuation byte with one expected emits the accumulated code point. -/
theorem unquoteAux_cont1 (acc lo hi b1 : Nat) (rest : List Char)
    (h1 : lo ≤ b1) (h2 : b1 ≤ hi) (hb : b1 < 256) :
    unquoteAux ⟨1, acc, lo, hi⟩ (pctEscape b1 ++ rest) =
      Char.ofNat (acc * 64 + (b1 - 0x80)) :: unquoteAux Utf8State.empty rest := by
  rw [unquoteAux_escape _ _ hb, utf8Step_cont_done _ _ _ _ h1 h2]
  rfl

/-- Decoding two escaped in-range continuation bytes with two expected emits the accumulated code point. -/
theorem unquoteAux_cont2 (acc lo hi b1 b2 : Nat) (rest : List Char)
    (h1 : lo ≤ b1) (h2 : b1 ≤ hi) (hb1 : b1 < 256)
    (h3 : 0x80 ≤ b2) (h4 : b2 ≤ 0xBF) (hb2 : b2 < 256) :
    unquoteAux ⟨2, acc, lo, hi⟩ (pctEscape b1 ++ (pctEscape b2 ++ rest)) =
      Char.ofNat ((acc * 64 + (b1 - 0x80)) * 64 + (b2 - 0x80)) ::
        unquoteAux Utf8State.empty rest := by
  rw [unquoteAux_escape _ _ hb1, utf8Step_cont_more 2 acc lo hi b1 h1 h2 (by omega)]
  show unquoteAux ⟨1, acc * 64 + (b1 - 0x80), 0x80, 0xBF⟩ (pctEscape b2 ++ rest) = _
  exact unquoteAux_cont1 _ _ _ _ _ h3 h4 hb2

/-- Decoding three escaped in-range continuation bytes with three expected emits the accumulated code point. -/
theorem unquoteAux_cont3 (acc lo hi b1 b2 b3 : Nat) (rest : List Char)
    (h1 : lo ≤ b1) (h2 : b1 ≤ hi) (hb1 : b1 < 256)
    (h3 : 0x80 ≤ b2) (h4 : b2 ≤ 0xBF) (hb2 : b2 < 256)
    (h5 : 0x80 ≤ b3) (h6 : b3 ≤ 0xBF) (hb3 : b3 < 256) :
    unquoteAux ⟨3, acc, lo, hi⟩ (pctEscape b1 ++ (pctEscape b2 ++ (pctEscape b3 ++ rest))) =
      Char.ofNat (((acc * 64 + (b1 - 0x80)) * 64 + (b2 - 0x80)) * 64 + (b3 - 0x80)) ::
        unquoteAux Utf8State.empty rest := by
  rw [unquoteAux_escape _ _ hb1, utf8Step_cont_more 3 acc lo hi b1 h1 h2 (by omega)]
  show unquoteAux ⟨2, acc * 64 + (b1 - 0x80), 0x80, 0xBF⟩
    (pctEscape b2 ++ (pctEscape b3 ++ rest)) = _
  exact unquoteAux_cont2 _ _ _ _ _ _ h3 h4 hb2 h5 h6 hb3

/-- Characters quote never escapes are ASCII. -/
theorem alwaysSafe_ascii (c : Char) (h : alwaysSafe c) : c.toNat < 0x80 := by
  simp only [alwaysSafe, decide_eq_true_eq] at h
  rcases h with h | h | h | h | h | h | h
  · omega
  · omega
  · omega
  all_goals (subst h; decide)

/-- Round trip for one character: decoding the quoted form of a character in front of any remaining input yields the character followed by the decoded remainder. -/
theorem unquote_quote_char (c : Char) (rest : List Char) :
    unquoteAux Utf8State.empty ((quotePlusChar c).map plusToSpace ++ rest) =
      c :: unquoteAux Utf8State.empty rest := by
  by_cases hsp : c = ' '
  · subst hsp
    rw [show (quotePlusChar ' ').map plusToSpace = [' '] from rfl,
      show (([' '] : List Char) ++ rest) = ' ' :: rest from rfl,
      unquoteAux_lit _ _ _ (by decide), if_pos (by decide)]
    rfl
  · by_cases hsf : alwaysSafe c
    · have hplus : plusToSpace c = c := by
        unfold plusToSpace
        rw [if_neg]
        intro h
        rw [h] at hsf
        exact absurd hsf (by decide)
      have hpct : ¬ c = '%' := by
        intro h
        rw [h] at hsf
        exact absurd hsf (by decide)
      have hascii : c.toNat < 0x80 := alwaysSafe_ascii c hsf
      rw [show quotePlusChar c = [c] from by unfold quotePlusChar; rw [if_neg hsp, if_pos hsf],
        List.map_cons, List.map_nil, hplus,
        show (([c] : List Char) ++ rest) = c :: rest from rfl,
        unquoteAux_lit _ _ _ hpct, if_pos hascii, utf8Step_empty, utf8Lead_ascii _ hascii,
        Char.ofNat_toNat]
      rfl
    · have hv := char_toNat_valid c
      have hq : quotePlusChar c = (utf8Bytes c.toNat).flatMap pctEscape := by
        unfold quotePlusChar; rw [if_neg hsp, if_neg hsf]
      by_cases h80 : c.toNat < 0x80
      · have hb : utf8Bytes c.toNat = [c.toNat] := by
          unfold utf8Bytes; rw [if_pos h80]
        rw [hq, hb]
        simp only [List.flatMap_cons, List.flatMap_nil, List.append_nil, List.map_append,
          List.append_assoc]
        rw [pctEscape_map c.toNat (by omega),
          unquoteAux_escape Utf8State.empty c.toNat (by omega), utf8Step_empty,
          utf8Lead_ascii _ h80, Char.ofNat_toNat]
        rfl
      · by_cases h800 : c.toNat < 0x800
        · have hb : utf8Bytes c.toNat = [0xC0 + c.toNat / 64, 0x80 + c.toNat % 64] := by
            unfold utf8Bytes; rw [if_neg (by omega), if_pos h800]
          rw [hq, hb]
          simp only [List.flatMap_cons, List.flatMap_nil, List.append_nil, List.map_append,
            List.append_assoc]
          rw [pctEscape_map (0xC0 + c.toNat / 64) (by omega),
            pctEscape_map (0x80 + c.toNat % 64) (by omega),
            unquoteAux_escape Utf8State.empty (0xC0 + c.toNat / 64) (by omega), utf8Step_empty,
            utf8Lead_2 (0xC0 + c.toNat / 64) (by omega) (by omega)]
          show unquoteAux ⟨1, 0xC0 + c.toNat / 64 - 0xC0, 0x80, 0xBF⟩
            (pctEscape (0x80 + c.toNat % 64) ++ rest) = _
          rw [unquoteAux_cont1 (0xC0 + c.toNat / 64 - 0xC0) 0x80 0xBF (0x80 + c.toNat % 64) rest
              (by omega) (by omega) (by omega),
            show (0xC0 + c.toNat / 64 - 0xC0) * 64 + (0x80 + c.toNat % 64 - 0x80) = c.toNat from
              by omega,
            Char.ofNat_toNat]
        · by_cases h10000 : c.toNat < 0x10000
          · have hb : utf8Bytes c.toNat =
                [0xE0 + c.toNat / 4096, 0x80 + c.toNat / 64 % 64, 0x80 + c.toNat % 64] := by
              unfold utf8Bytes; rw [if_neg (by omega), if_neg (by omega), if_pos h10000]
            rw [hq, hb]
            simp only [List.flatMap_cons, List.flatMap_nil, List.append_nil, List.map_append,
              List.append_assoc]
            rw [pctEscape_map (0xE0 + c.toNat / 4096) (by omega),
              pctEscape_map (0x80 + c.toNat / 64 % 64) (by omega),
              pctEscape_map (0x80 + c.toNat % 64) (by omega),
              unquoteAux_escape Utf8State.empty (0xE0 + c.toNat / 4096) (by omega),
              utf8Step_empty]
            by_cases hd0 : c.toNat / 4096 = 0
            · rw [show (0xE0 + c.toNat / 4096) = 0xE0 from by omega, utf8Lead_E0]
              show unquoteAux ⟨2, 0, 0xA0, 0xBF⟩
                (pctEscape (0x80 + c.toNat / 64 % 64) ++ (pctEscape (0x80 + c.toNat % 64) ++ rest)) = _
              rw [unquoteAux_cont2 0 0xA0 0xBF (0x80 + c.toNat / 64 % 64) (0x80 + c.toNat % 64)
                  rest (by omega) (by omega) (by omega) (by omega) (by omega) (by omega),
                show ((0 : Nat) * 64 + (0x80 + c.toNat / 64 % 64 - 0x80)) * 64 +
                    (0x80 + c.toNat % 64 - 0x80) = c.toNat from by omega,
                Char.ofNat_toNat]
            · by_cases hdED : c.toNat / 4096 = 0xD
              · rw [show (0xE0 + c.toNat / 4096) = 0xED from by omega, utf8Lead_ED]
                show unquoteAux ⟨2, 0xD, 0x80, 0x9F⟩
                  (pctEscape (0x80 + c.toNat / 64 % 64) ++ (pctEscape (0x80 + c.toNat % 64) ++ rest)) = _
                rw [unquoteAux_cont2 0xD 0x80 0x9F (0x80 + c.toNat / 64 % 64) (0x80 + c.toNat % 64)
                    rest (by omega) (by omega) (by omega) (by omega) (by omega) (by omega),
                  show ((0xD : Nat) * 64 + (0x80 + c.toNat / 64 % 64 - 0x80)) * 64 +
                      (0x80 + c.toNat % 64 - 0x80) = c.toNat from by omega,
                  Char.ofNat_toNat]
              · by_cases hdmid : c.toNat / 4096 ≤ 0xC
                · rw [utf8Lead_3mid (0xE0 + c.toNat / 4096) (by omega) (by omega)]
                  show unquoteAux ⟨2, 0xE0 + c.toNat / 4096 - 0xE0, 0x80, 0xBF⟩
                    (pctEscape (0x80 + c.toNat / 64 % 64) ++ (pctEscape (0x80 + c.toNat % 64) ++ rest)) = _
                  rw [unquoteAux_cont2 (0xE0 + c.toNat / 4096 - 0xE0) 0x80 0xBF
                      (0x80 + c.toNat / 64 % 64) (0x80 + c.toNat % 64) rest
                      (by omega) (by omega) (by omega) (by omega) (by omega) (by omega),
                    show ((0xE0 + c.toNat / 4096 - 0xE0) * 64 + (0x80 + c.toNat / 64 % 64 - 0x80)) *
                        64 + (0x80 + c.toNat % 64 - 0x80) = c.toNat from by omega,
                    Char.ofNat_toNat]
                · rw [utf8Lead_3hi (0xE0 + c.toNat / 4096) (by omega) (by omega)]
                  show unquoteAux ⟨2, 0xE0 + c.toNat / 4096 - 0xE0, 0x80, 0xBF⟩
                    (pctEscape (0x80 + c.toNat / 64 % 64) ++ (pctEscape (0x80 + c.toNat % 64) ++ rest)) = _
                  rw [unquoteAux_cont2 (0xE0 + c.toNat / 4096 - 0xE0) 0x80 0xBF
                      (0x80 + c.toNat / 64 % 64) (0x80 + c.toNat % 64) rest
                      (by omega) (by omega) (by omega) (by omega) (by omega) (by omega),
                    show ((0xE0 + c.toNat / 4096 - 0xE0) * 64 + (0x80 + c.toNat / 64 % 64 - 0x80)) *
                        64 + (0x80 + c.toNat % 64 - 0x80) = c.toNat from by omega,
                    Char.ofNat_toNat]
          · have hb : utf8Bytes c.toNat =
                [0xF0 + c.toNat / 262144, 0x80 + c.toNat / 4096 % 64, 0x80 + c.toNat / 64 % 64,
                 0x80 + c.toNat % 64] := by
              unfold utf8Bytes
              rw [if_neg (by omega), if_neg (by omega), if_neg (by omega)]
            rw [hq, hb]
            simp only [List.flatMap_cons, List.flatMap_nil, List.append_nil, List.map_append,
              List.append_assoc]
            rw [pctEscape_map (0xF0 + c.toNat / 262144) (by omega),
              pctEscape_map (0x80 + c.toNat / 4096 % 64) (by omega),
              pctEscape_map (0x80 + c.toNat / 64 % 64) (by omega),
              pctEscape_map (0x80 + c.toNat % 64) (by omega),
              unquoteAux_escape Utf8State.empty (0xF0 + c.toNat / 262144) (by omega),
              utf8Step_empty]
            by_cases hd0 : c.toNat / 262144 = 0
            · rw [show (0xF0 + c.toNat / 262144) = 0xF0 from by omega, utf8Lead_F0]
              show unquoteAux ⟨3, 0, 0x90, 0xBF⟩
                (pctEscape (0x80 + c.toNat / 4096 % 64) ++ (pctEscape (0x80 + c.toNat / 64 % 64) ++
                  (pctEscape (0x80 + c.toNat % 64) ++ rest))) = _
              rw [unquoteAux_cont3 0 0x90 0xBF (0x80 + c.toNat / 4096 % 64)
                  (0x80 + c.toNat / 64 % 64) (0x80 + c.toNat % 64) rest
                  (by omega) (by omega) (by omega) (by omega) (by omega) (by omega)
                  (by omega) (by omega) (by omega),
                show (((0 : Nat) * 64 + (0x80 + c.toNat / 4096 % 64 - 0x80)) * 64 +
                    (0x80 + c.toNat / 64 % 64 - 0x80)) * 64 + (0x80 + c.toNat % 64 - 0x80) =
                    c.toNat from by omega,
                Char.ofNat_toNat]
            · by_cases hd4 : c.toNat / 262144 = 4
              · rw [show (0xF0 + c.toNat / 262144) = 0xF4 from by omega, utf8Lead_F4]
                show unquoteAux ⟨3, 4, 0x80, 0x8F⟩
                  (pctEscape (0x80 + c.toNat / 4096 % 64) ++ (pctEscape (0x80 + c.toNat / 64 % 64) ++
                    (pctEscape (0x80 + c.toNat % 64) ++ rest))) = _
                rw [unquoteAux_cont3 4 0x80 0x8F (0x80 + c.toNat / 4096 % 64)
                    (0x80 + c.toNat / 64 % 64) (0x80 + c.toNat % 64) rest
                    (by omega) (by omega) (by omega) (by omega) (by omega) (by omega)
                    (by omega) (by omega) (by omega),
                  show (((4 : Nat) * 64 + (0x80 + c.toNat / 4096 % 64 - 0x80)) * 64 +
                      (0x80 + c.toNat / 64 % 64 - 0x80)) * 64 + (0x80 + c.toNat % 64 - 0x80) =
                      c.toNat from by omega,
                  Char.ofNat_toNat]
              · rw [utf8Lead_4mid (0xF0 + c.toNat / 262144) (by omega) (by omega)]
                show unquoteAux ⟨3, 0xF0 + c.toNat / 262144 - 0xF0, 0x80, 0xBF⟩
                  (pctEscape (0x80 + c.toNat / 4096 % 64) ++ (pctEscape (0x80 + c.toNat / 64 % 64) ++
                    (pctEscape (0x80 + c.toNat % 64) ++ rest))) = _
                rw [unquoteAux_cont3 (0xF0 + c.toNat / 262144 - 0xF0) 0x80 0xBF
                    (0x80 + c.toNat / 4096 % 64) (0x80 + c.toNat / 64 % 64) (0x80 + c.toNat % 64)
                    rest (by omega) (by omega) (by omega) (by omega) (by omega) (by omega)
                    (by omega) (by omega) (by omega),
                  show (((0xF0 + c.toNat / 262144 - 0xF0) * 64 + (0x80 + c.toNat / 4096 % 64 - 0x80)) *
                      64 + (0x80 + c.toNat / 64 % 64 - 0x80)) * 64 + (0x80 + c.toNat % 64 - 0x80) =
                      c.toNat from by omega,
                  Char.ofNat_toNat]

/-- Round trip for a character list in front of any remaining input. -/
theorem unquoteAux_quotePlus (l : List Char) :
    ∀ rest, unquoteAux Utf8State.empty ((quotePlusL l).map plusToSpace ++ rest) =
      l ++ unquoteAux Utf8State.empty rest := by
  induction l with
  | nil => intro rest; rfl
  | cons c l ih =>
      intro rest
      rw [show quotePlusL (c :: l) = quotePlusChar c ++ quotePlusL l from rfl,
        List.map_append, List.append_assoc, unquote_quote_char, ih]
      rfl

/-- unquote_plus inverts quote_plus on character lists. -/
theorem unquotePlusL_quotePlusL (l : List Char) : unquotePlusL (quotePlusL l) = l := by
  show unquoteAux Utf8State.empty ((quotePlusL l).map plusToSpace) = l
  rw [show (quotePlusL l).map plusToSpace = (quotePlusL l).map plusToSpace ++ [] from
      (List.append_nil _).symm,
    unquoteAux_quotePlus]
  exact List.append_nil l

/-- unquote_plus inverts quote_plus: urllib decodes every string quote_plus encoded back to itself. -/
theorem unquotePlus_quotePlus (s : String) : unquote_plus (quote_plus s) = s := by
  show String.mk (unquotePlusL (quotePlusL s.data)) = s
  rw [unquotePlusL_quotePlusL]

/-- Uppercase hexadecimal digits are neither ampersands nor equals signs. -/
theorem hexUpperChar_ne : ∀ m < 16, hexUpperChar m ≠ '&' ∧ hexUpperChar m ≠ '=' := by decide

/-- UTF-8 bytes of a valid code point are bytes. -/
theorem utf8Bytes_lt (n : Nat) (hn : n < 0x110000) : ∀ b ∈ utf8Bytes n, b < 256 := by
  intro b hb
  unfold utf8Bytes at hb
  split_ifs at hb with h1 h2 h3 <;> simp [List.mem_cons] at hb <;> omega

/-- The quoted form of a character contains no ampersand and no equals sign, the two separators urlencode relies on. -/
theorem quotePlusChar_mem (c : Char) : ∀ x ∈ quotePlusChar c, x ≠ '&' ∧ x ≠ '=' := by
  intro x hx
  unfold quotePlusChar at hx
  split_ifs at hx with h1 h2
  · simp at hx; subst hx; decide
  · simp at hx; subst hx
    constructor
    · intro h; rw [h] at h2; exact absurd h2 (by decide)
    · intro h; rw [h] at h2; exact absurd h2 (by decide)
  · rw [List.mem_flatMap] at hx
    obtain ⟨b, hb, hxb⟩ := hx
    have hblt : b < 256 :=
      utf8Bytes_lt c.toNat (by rcases char_toNat_valid c with h | h <;> omega) b hb
    unfold pctEscape at hxb
    simp [List.mem_cons] at hxb
    rcases hxb with rfl | rfl | rfl
    · decide
    · exact hexUpperChar_ne _ (by omega)
    · exact hexUpperChar_ne _ (by omega)

/-- The quoted form of a character list contains no ampersand and no equals sign. -/
theorem quotePlusL_mem (l : List Char) : ∀ x ∈ quotePlusL l, x ≠ '&' ∧ x ≠ '=' := by
  intro x hx
  unfold quotePlusL at hx
  rw [List.mem_flatMap] at hx
  obtain ⟨c, _, hxc⟩ := hx
  exact quotePlusChar_mem c x hxc

/-- Decoding a query string the way the test suite reads back authorize_url output: split the query on ampersands, split each field once on an equals sign and unquote name and value (a field without one decodes to an empty value). -/
def decodeQuery (qs : String) : List (String × String) :=
  (pySplit '&' qs.data).map (fun fld =>
    match pySplitOnce '=' fld with
    | [n, v] => (String.mk (unquotePlusL n), String.mk (unquotePlusL v))
    | _ => (String.mk (unquotePlusL fld), ""))

/-- Decoding one urlencoded field recovers the name and value it encodes. -/
theorem decodeField_encode (k v : String) :
    (match pySplitOnce '=' (quotePlusL k.data ++ '=' :: quotePlusL v.data) with
    | [n, w] => (String.mk (unquotePlusL n), String.mk (unquotePlusL w))
    | _ => (String.mk (unquotePlusL (quotePlusL k.data ++ '=' :: quotePlusL v.data)), "")) =
      (k, v) := by
  rw [pySplitOnce_append '=' _ _ (fun hm => (quotePlusL_mem _ _ hm).2 rfl)]
  show (String.mk (unquotePlusL (quotePlusL k.data)),
    String.mk (unquotePlusL (quotePlusL v.data))) = (k, v)
  rw [unquotePlusL_quotePlusL, unquotePlusL_quotePlusL]

/-- Decoding inverts urlencode: the decoded query parameters of an urlencoded nonempty dict are exactly its items, in order. -/
theorem decodeQuery_urlencode (params : List (String × String)) (h : params ≠ []) :
    decodeQuery (urlencode params) = params := by
  have hfields : ∀ p ∈ params.map
      (fun kv => quotePlusL kv.1.data ++ '=' :: quotePlusL kv.2.data), ('&' : Char) ∉ p := by
    intro p hp
    rw [List.mem_map] at hp
    obtain ⟨kv, _, rfl⟩ := hp
    intro hmem
    rcases List.mem_append.1 hmem with hm | hm
    · exact (quotePlusL_mem _ _ hm).1 rfl
    · rcases List.mem_cons.1 hm with hm | hm
      · exact absurd hm (by decide)
      · exact (quotePlusL_mem _ _ hm).1 rfl
  have hne : params.map (fun kv => quotePlusL kv.1.data ++ '=' :: quotePlusL kv.2.data) ≠ [] := by
    simp [h]
  show ((pySplit '&' (urlencode params).data).map _) = params
  rw [show (urlencode params).data =
      pyJoin '&' (params.map (fun kv => quotePlusL kv.1.data ++ '=' :: quotePlusL kv.2.data))
      from rfl]
  rw [pySplit_pyJoin '&' _ hne hfields, List.map_map]
  exact mapFix _ params (fun kv _ => decodeField_encode kv.1 kv.2)

/-- C5: authorize_url returns a pair whose URL is the fixed authorization endpoint https://moneybird.com/oauth/authorize/ followed by a question mark and a query string whose decoded parameters are exactly response_type=code, the configured client id, the configured redirect URL, the scopes joined with single spaces, and the state used, which is the returned state; the returned state is the supplied one when one is supplied, and the freshly generated state otherwise. -/
theorem c5_authorize_url (cid cs ru : String) (scope : List String)
    (stOpt : Option String) (gen : Nat) :
    ∃ qs : String,
      ((OAuthAuthentication.make ru cid cs "").authorize_url scope stOpt gen).1 =
        "https://moneybird.com/oauth/authorize/" ++ "?" ++ qs ∧
      decodeQuery qs =
        [("response_type", "code"), ("client_id", cid), ("redirect_uri", ru),
         ("scope", String.intercalate " " scope),
         ("state", ((OAuthAuthentication.make ru cid cs "").authorize_url scope stOpt gen).2)] ∧
      (∀ s, stOpt = some s →
        ((OAuthAuthentication.make ru cid cs "").authorize_url scope stOpt gen).2 = s) ∧
      (stOpt = Option.none →
        ((OAuthAuthentication.make ru cid cs "").authorize_url scope stOpt gen).2 =
          OAuthAuthentication.generate_state gen) := by
  have hurl : urljoin OAuthAuthentication.base_url OAuthAuthentication.auth_url =
      "https://moneybird.com/oauth/authorize/" := by decide
  cases stOpt with
  | some s =>
      refine ⟨urlencode [("response_type", "code"), ("client_id", cid), ("redirect_uri", ru),
          ("scope", String.intercalate " " scope), ("state", s)], ?_, ?_, ?_, ?_⟩
      · show urljoin OAuthAuthentication.base_url OAuthAuthentication.auth_url ++ "?" ++
          urlencode [("response_type", "code"), ("client_id", cid), ("redirect_uri", ru),
            ("scope", String.intercalate " " scope), ("state", s)] = _
        rw [hurl]
      · rw [decodeQuery_urlencode _ (by simp)]
        rfl
      · intro s' hs'
        show s = s'
        exact Option.some.inj hs'
      · intro hnone
        simp at hnone
  | none =>
      refine ⟨urlencode [("response_type", "code"), ("client_id", cid), ("redirect_uri", ru),
          ("scope", String.intercalate " " scope),
          ("state", OAuthAuthentication.generate_state gen)], ?_, ?_, ?_, ?_⟩
      · show urljoin OAuthAuthentication.base_url OAuthAuthentication.auth_url ++ "?" ++
          urlencode [("response_type", "code"), ("client_id", cid), ("redirect_uri", ru),
            ("scope", String.intercalate " " scope),
            ("state", OAuthAuthentication.generate_state gen)] = _
        rw [hurl]
      · rw [decodeQuery_urlencode _ (by simp)]
        rfl
      · intro s' hs'
        simp at hs'
      · intro _
        rfl
